import Mathlib

/-!
Verification development for the compiler back-end core:
type layout and global-initializer images (`ppci/lang/c/context.py`),
AST-to-IR lowering (`ppci/c3/codegenerator.py`), and BURS tree labeling
(`ppci/codegen/instructionselector.py`).

Each section embeds the corresponding source functions as executable Lean
definitions and proves the spec claims about them.
-/

namespace CCtx

/-- Basic C type identifiers, mirroring `BasicType` as used in
`CContext.type_size_map` (src/ppci/lang/c/context.py). -/
inductive BasicTypeId where
  | char | uchar | short | ushort | int | uint
  | long | ulong | longlong | ulonglong
  | float | double | longdouble
  deriving DecidableEq, Repr

/-- Architecture information consumed by `CContext.__init__`:
the target-configurable sizes and alignments of `int`, `ptr` and `double`,
and the endianness.  Order of fields:
intSize, intAlignment, ptrSize, ptrAlignment, doubleSize, doubleAlignment,
littleEndian. -/
structure ArchInfo where
  intSize : Nat
  intAlignment : Nat
  ptrSize : Nat
  ptrAlignment : Nat
  doubleSize : Nat
  doubleAlignment : Nat
  littleEndian : Bool
  deriving DecidableEq, Repr

/-- `CContext.type_size_map`: per basic type `(size, alignment)` in bytes. -/
def typeSizeAlign (arch : ArchInfo) : BasicTypeId → Nat × Nat
  | .char => (1, 1)
  | .uchar => (1, 1)
  | .short => (2, 2)
  | .ushort => (2, 2)
  | .int => (arch.intSize, arch.intAlignment)
  | .uint => (arch.intSize, arch.intAlignment)
  | .long => (4, 4)
  | .ulong => (4, 4)
  | .longlong => (8, 8)
  | .ulonglong => (8, 8)
  | .float => (4, 4)
  | .double => (arch.doubleSize, arch.doubleAlignment)
  | .longdouble => (10, 10)

/- C types as consumed by the layout service.  Array sizes and bit-field
widths appear here already evaluated to integers (the source evaluates the
size/bitsize expressions through `eval_expr`, whose literal case returns the
value unchanged).  Incomplete struct/union/enum types are not represented:
the source raises an error on them before any layout work happens. -/
mutual
inductive CType where
  | basic (tid : BasicTypeId)
  | array (elementType : CType) (size : Nat)
  | structT (fields : List CField)
  | unionT (fields : List CField)
  | enumT (constants : List (Option Int))
  | pointer
inductive CField where
  | mk (name : String) (typ : CType) (bitsize : Option Nat)
end

def CField.name : CField → String
  | .mk n _ _ => n

def CField.typ : CField → CType
  | .mk _ t _ => t

def CField.bitsize : CField → Option Nat
  | .mk _ _ b => b

/-- Modelled from the spec: `required_padding` (imported from
`ppci.lang.c.utils`, not part of src/) — "advance offset by the required
padding to the alignment": the least amount that brings `offset` up to a
multiple of `alignment`. -/
def requiredPadding (offset alignment : Nat) : Nat :=
  if alignment == 0 then 0 else (alignment - offset % alignment) % alignment

/- `CContext.alignment`: alignment of a type in bytes.  Struct and union
alignment is the maximum field alignment.  (`maxFieldAlignment` is the
Lean rendering of the `max(...)` generator expression; the source raises
on an empty field list, a case excluded earlier as an incomplete type.) -/
mutual
def alignment (arch : ArchInfo) : CType → Nat
  | .basic tid => (typeSizeAlign arch tid).2
  | .array et _ => alignment arch et
  | .structT fields => maxFieldAlignment arch fields
  | .unionT fields => maxFieldAlignment arch fields
  | .enumT _ => arch.intAlignment
  | .pointer => arch.ptrAlignment
def maxFieldAlignment (arch : ArchInfo) : List CField → Nat
  | [] => 0
  | .mk _ t _ :: rest => max (alignment arch t) (maxFieldAlignment arch rest)
end

/- `CContext.sizeof` together with `layout_struct`
(src/ppci/lang/c/context.py lines 76-164): size of a type in whole bytes.
`layoutFields` is `layout_struct`'s field walk, threading the bit offset;
it returns the total size in bytes and the per-field bit offsets in
declaration order.  `maxFieldSize` renders the union `max(...)`. -/
mutual
def sizeof (arch : ArchInfo) : CType → Nat
  | .basic tid => (typeSizeAlign arch tid).1
  | .array et n => sizeof arch et * n
  | .structT fields => (layoutFields arch "struct" 0 fields).1
  | .unionT fields => maxFieldSize arch fields
  | .enumT _ => arch.intSize
  | .pointer => arch.ptrSize
def maxFieldSize (arch : ArchInfo) : List CField → Nat
  | [] => 0
  | .mk _ t _ :: rest => max (sizeof arch t) (maxFieldSize arch rest)
def layoutFields (arch : ArchInfo) (kind : String) (offset : Nat) :
    List CField → Nat × List (String × Nat)
  | [] =>
      let offset := offset + requiredPadding offset 8
      (offset / 8, [])
  | .mk nm t bs :: rest =>
      let (bitsize, fieldAlignment) :=
        match bs with
        | some b => (b, 1)
        | none => (sizeof arch t * 8, alignment arch t * 8)
      let offset := offset + requiredPadding offset fieldAlignment
      let offset2 := if kind == "struct" then offset + bitsize else offset
      let (total, offs) := layoutFields arch kind offset2 rest
      (total, (nm, offset) :: offs)
end

/-- `CContext.layout_struct`: entry point with the bit offset starting at 0. -/
def layout_struct (arch : ArchInfo) (kind : String) (fields : List CField) :
    Nat × List (String × Nat) :=
  layoutFields arch kind 0 fields

/-- `CContext._get_field_offsets` (minus the cache, which only memoizes the
pure result): kind is `"struct"` for a struct type and `"union"` otherwise. -/
def getFieldOffsets (arch : ArchInfo) : CType → Option (Nat × List (String × Nat))
  | .structT fields => some (layout_struct arch "struct" fields)
  | .unionT fields => some (layout_struct arch "union" fields)
  | _ => none

/-- The bit offset `_get_field_offsets` records for a named field. -/
def fieldBitOffset (arch : ArchInfo) (typ : CType) (field : String) : Option Nat :=
  (getFieldOffsets arch typ).bind fun so =>
    (so.2.lookup field)

/-- `CContext.offsetof`: byte offset of a field, `bit_offset // 8`. -/
def offsetof (arch : ArchInfo) (typ : CType) (field : String) : Option Nat :=
  (fieldBitOffset arch typ field).map (· / 8)

/-- `CContext._calculate_enum_values`: running value starts at 0; a constant
with an explicit (compile-time evaluated) value resets the running value,
each constant records the running value, which then increases by one.
The explicit values arrive here already evaluated (`eval_expr`). -/
def calcEnumAux : Int → List (Option Int) → List Int
  | _, [] => []
  | value, c :: rest =>
      let value := match c with
        | some v => v
        | none => value
      value :: calcEnumAux (value + 1) rest

def calculateEnumValues (constants : List (Option Int)) : List Int :=
  calcEnumAux 0 constants

/-- `CContext.get_enum_value` (minus the cache, which only memoizes the pure
result of `_calculate_enum_values`): the value of the i-th constant. -/
def get_enum_value (constants : List (Option Int)) (i : Nat) : Option Int :=
  (calculateEnumValues constants)[i]?

/-- The `int_map` of `CContext.__init__` maps a configured size to a struct
format character whose standard (`<`/`>`-prefixed) size equals the key;
other sizes raise a `KeyError`. -/
def intFormatSize : Nat → Option Nat
  | 2 => some 2
  | 4 => some 4
  | 8 => some 8
  | _ => none

/-- `struct.calcsize` of the format `ctypes_names` assigns to a type; `none`
models the `KeyError` for types without an entry (notably `LONGDOUBLE`) and
the assertion in `pack` that only basic and pointer types arrive. -/
def calcSize (arch : ArchInfo) : CType → Option Nat
  | .pointer => intFormatSize arch.ptrSize
  | .basic .char => some 1
  | .basic .uchar => some 1
  | .basic .short => some 2
  | .basic .ushort => some 2
  | .basic .int => intFormatSize arch.intSize
  | .basic .uint => intFormatSize arch.intSize
  | .basic .long => some 4
  | .basic .ulong => some 4
  | .basic .longlong => some 8
  | .basic .ulonglong => some 8
  | .basic .float => some 4
  | .basic .double => some (if arch.doubleSize == 4 then 4 else 8)
  | .basic .longdouble => none
  | _ => none

/-- Little-endian base-256 digits of a natural number, `n` bytes. -/
def natLEBytes : Nat → Nat → List Nat
  | 0, _ => []
  | n + 1, v => (v % 256) :: natLEBytes n (v / 256)

/-- `CContext.pack`: pack a scalar value into its memory format.  The byte
order follows the target endianness; integers are encoded two's complement
(the range errors `struct.pack` would raise for out-of-range values are not
modelled, nor is the IEEE-754 payload of float/double values — only the
byte count, `struct.calcsize`, matters to the claims below).  `none` models
the assertion `sizeof(typ) == struct.calcsize(fmt)` failing or a missing
format entry. -/
def pack (arch : ArchInfo) (typ : CType) (v : Int) : Option (List Nat) :=
  match calcSize arch typ with
  | none => none
  | some size =>
      if sizeof arch typ ≠ size then none
      else
        match typ with
        | .basic .float => some (List.replicate size 0)
        | .basic .double => some (List.replicate size 0)
        | _ =>
            let u := (v.emod ((2 : Int) ^ (8 * size))).toNat
            some (if arch.littleEndian then natLEBytes size u
                  else (natLEBytes size u).reverse)

/-- One part of a memory image: a raw byte sequence, or a symbolic pointer
relocation `(ir.ptr, name)`. -/
inductive Part where
  | bytes (bs : List Nat)
  | ptrref (name : String)
  deriving DecidableEq, Repr

/-- `CContext.mem_len`: byte size of a memory slab; a pointer relocation
counts as `arch_info.get_size(ir.ptr)` bytes. -/
def memLen (arch : ArchInfo) : List Part → Nat
  | [] => 0
  | .bytes bs :: rest => bs.length + memLen arch rest
  | .ptrref _ :: rest => arch.ptrSize + memLen arch rest

/-- Whether every part of a memory image is a raw byte sequence. -/
def allBytes (mem : List Part) : Bool :=
  mem.all (fun p => match p with | .bytes _ => true | .ptrref _ => false)

/-- Modelled from the spec: `value_to_bits` from `ppci.utils.bitfun` (not
part of src/) — the `bitsize` bits of the value, least significant first. -/
def valueToBits (v : Int) (n : Nat) : List Bool :=
  (List.range n).map (fun i => ((v.emod ((2 : Int) ^ n)).toNat).testBit i)

/-- Value of up to eight bits, least significant first. -/
def bitsToByte (bs : List Bool) : Nat :=
  bs.foldr (fun b acc => 2 * acc + (if b then 1 else 0)) 0

/-- Modelled from the spec: `bits_to_bytes` from `ppci.utils.bitfun` (not
part of src/) — "flushing accumulated bit-field bits into bytes": eight
bits per byte, the final partial byte zero-padded. -/
def bitsToBytes : List Bool → List Nat
  | [] => []
  | b :: bs => bitsToByte ((b :: bs).take 8) :: bitsToBytes ((b :: bs).drop 8)
termination_by l => l.length
decreasing_by simp; omega

/-- Initializer expressions as `gen_global_ival` consumes them.  Scalar
initializers appear by their `eval_expr` result: an integer (`numE`) or a
symbolic global/function reference `(ir.ptr, name)` (`ptrE`).  The struct
initializer's field→value dictionary is rendered as a list parallel to the
field list, `none` marking an absent field; a union initializer names its
field by position.  (`_make_ival`'s conversion of plain Python lists and
ints into these expression forms is value-preserving and elided.) -/
inductive IVal where
  | arrayI (values : List (Option IVal))
  | structI (values : List (Option IVal))
  | unionI (fieldIdx : Nat) (value : IVal)
  | numE (v : Int)
  | ptrE (name : String)

/-- Scalar compile-time value of an initializer as `eval_expr` sees it when
a bit-field is initialized; `none` models the crash on a non-integer there
(`value_to_bits` of a tuple, or `eval_expr`'s `NotImplementedError`). -/
def scalarIntOf : IVal → Option Int
  | .numE v => some v
  | _ => none

/-- The basic/pointer case of `gen_global_ival`: evaluate, then either emit
the `(ir.ptr, name)` relocation as-is or pack the constant. -/
def scalarIval (arch : ArchInfo) (typ : CType) (iv : IVal) : Option (List Part) :=
  match iv with
  | .ptrE n => some [Part.ptrref n]
  | .numE v => (pack arch typ v).map (fun bs => [Part.bytes bs])
  | _ => none

/-- `_initialize_struct`'s bit flush: purge accumulated bits into bytes. -/
def flushBits (mem : List Part) (bits : List Bool) : List Part :=
  if bits.isEmpty then mem else mem ++ [Part.bytes (bitsToBytes bits)]

/- `CContext.gen_global_ival` with its helpers `_initialize_array`,
`_initialize_struct` and `_initialize_union`
(src/ppci/lang/c/context.py lines 246-355).  `none` models every raised
exception (assertion failures, `NotImplementedError`, failed packing).
`structLoop` walks the fields (paired with their layout bit offsets)
parallel to the initializer values, threading the memory image and the
working bit list exactly as the source loop does. -/
mutual
def gen_global_ival (arch : ArchInfo) : CType → IVal → Option (List Part)
  | .array et n, .arrayI vs =>
      -- `_initialize_array`: serialize the given elements, then pad the
      -- missing trailing elements with `element_size` zero bytes each.
      (match arrayParts arch et vs with
       | none => none
       | some parts =>
           some (if vs.length < n then
                   parts ++ List.replicate (n - vs.length)
                     (Part.bytes (List.replicate (sizeof arch et) 0))
                 else parts))
  | .array _ _, _ => none
  | .structT fields, .structI vs =>
      if vs.length = fields.length then
        structLoop arch (fields.zip ((layout_struct arch "struct" fields).2.map (·.2))) vs [] []
      else none
  | .structT _, _ => none
  | .unionT fields, .unionI i v =>
      -- `_initialize_union`: serialize the named field, then pad.
      (match fields[i]? with
       | none => none
       | some (.mk _ ft _) =>
           match gen_global_ival arch ft v with
           | none => none
           | some fm =>
               let size := sizeof arch (.unionT fields)
               -- NOTE the source computes `filling = size - len(mem)` where
               -- `len(mem)` is the number of PARTS of the tuple, not the
               -- byte length `mem_len(mem)`; the model follows the source.
               if fm.length ≤ size then
                 some (fm ++ [Part.bytes (List.replicate (size - fm.length) 0)])
               else none)
  | .unionT _, _ => none
  | .basic tid, iv => scalarIval arch (.basic tid) iv
  | .pointer, iv => scalarIval arch .pointer iv
  | .enumT _, _ => none
def arrayParts (arch : ArchInfo) (et : CType) :
    List (Option IVal) → Option (List Part)
  | [] => some []
  | none :: rest =>
      match arrayParts arch et rest with
      | none => none
      | some r => some (Part.bytes (List.replicate (sizeof arch et) 0) :: r)
  | some iv :: rest =>
      match gen_global_ival arch et iv, arrayParts arch et rest with
      | some m, some r => some (m ++ r)
      | _, _ => none
def structLoop (arch : ArchInfo) :
    List (CField × Nat) → List (Option IVal) → List Part → List Bool →
    Option (List Part)
  | [], _, mem, bits => some (flushBits mem bits)
  | (.mk _ t bs, off) :: rest, v :: vs, mem, bits =>
      match bs with
      | some bsz =>
          match (match v with
                 | some iv => scalarIntOf iv
                 | none => some 0) with
          | none => none
          | some cval => structLoop arch rest vs mem (bits ++ valueToBits cval bsz)
      | none =>
          let mem := flushBits mem bits
          let fieldOff := off / 8
          let ml := memLen arch mem
          let mem := if ml < fieldOff
                     then mem ++ [Part.bytes (List.replicate (fieldOff - ml) 0)]
                     else mem
          match v with
          | some iv =>
              match gen_global_ival arch t iv with
              | none => none
              | some fm => structLoop arch rest vs (mem ++ fm) []
          | none =>
              structLoop arch rest vs
                (mem ++ [Part.bytes (List.replicate (sizeof arch t) 0)]) []
  | _ :: _, [], _, _ => none
end

/-- A little-endian 4-byte-int architecture (int 4/4, ptr 4/4, double 8/8). -/
def arch0 : ArchInfo := ⟨4, 4, 4, 4, 8, 8, true⟩

/-- The union type `union { int a; }`. -/
def unionIntA : CType := .unionT [.mk "a" (.basic .int) none]

/-- C1: `_initialize_union` pads with `size - len(mem)` zero bytes, where
`len(mem)` counts the *parts* of the image tuple rather than its byte
length (`mem_len`).  For `union { int a; }` initialized with `{ .a = 5 }`
on a 4-byte-int target the field serializes to one 4-byte part, so the
code appends `4 - 1 = 3` zero bytes and produces a 7-byte image, although
`sizeof` of the union is 4 — the initializer-image length invariant and
the zero-pad-to-union-size sentence both fail on this input. -/
theorem c1_union_image_length_bug :
    gen_global_ival arch0 unionIntA (.unionI 0 (.numE 5)) =
        some [Part.bytes [5, 0, 0, 0], Part.bytes [0, 0, 0]] ∧
    allBytes [Part.bytes [5, 0, 0, 0], Part.bytes [0, 0, 0]] = true ∧
    memLen arch0 [Part.bytes [5, 0, 0, 0], Part.bytes [0, 0, 0]] = 7 ∧
    sizeof arch0 unionIntA = 4 := by
  refine ⟨by decide, by decide, by decide, by decide⟩

/-- The struct type `struct { int a : 3; int b : 5; int c; }`. -/
def structS : CType :=
  .structT [.mk "a" (.basic .int) (some 3),
            .mk "b" (.basic .int) (some 5),
            .mk "c" (.basic .int) none]

/-- C3: `layout_struct` walks the fields in declaration order with a bit
offset (bit-fields: evaluated bitsize, 1-bit alignment; others:
`sizeof*8` and `alignment*8`), pads to each field's alignment, records the
bit offset, advances for `struct` kind, and finally pads to an 8-bit
boundary.  Consequently, for `struct { int a : 3; int b : 5; int c; }` on
a 4-byte-int target: `offsetof` gives 0 for `a` and `b` (with `b` at bit
offset 3) and 4 for `c`, the struct's size is 8 bytes and its alignment
is 4. -/
theorem c3_struct_bitfield_layout :
    offsetof arch0 structS "a" = some 0 ∧
    offsetof arch0 structS "b" = some 0 ∧
    fieldBitOffset arch0 structS "b" = some 3 ∧
    offsetof arch0 structS "c" = some 4 ∧
    sizeof arch0 structS = 8 ∧
    alignment arch0 structS = 4 := by
  refine ⟨by decide, by decide, by decide, by decide, by decide, by decide⟩

theorem calcEnumAux_length (v : Int) (cs : List (Option Int)) :
    (calcEnumAux v cs).length = cs.length := by
  induction cs generalizing v with
  | nil => simp [calcEnumAux]
  | cons c rest ih => simp [calcEnumAux, ih]

theorem calcEnumAux_getD (v : Int) (cs : List (Option Int)) (i : Nat)
    (h : i < cs.length) :
    (calcEnumAux v cs).getD i 0 =
      match cs.getD i none with
      | some x => x
      | none => if i = 0 then v else (calcEnumAux v cs).getD (i - 1) 0 + 1 := by
  induction cs generalizing v i with
  | nil => simp at h
  | cons c rest ih =>
      cases i with
      | zero =>
          cases c <;> simp [calcEnumAux]
      | succ j =>
          have hj : j < rest.length := by simpa using h
          cases c with
          | none =>
              have hih := ih (v + 1) j hj
              simp only [calcEnumAux, List.getD_cons_succ]
              rw [hih]
              cases hc : rest.getD j none with
              | some x => simp
              | none =>
                  cases j with
                  | zero => simp [calcEnumAux]
                  | succ k => simp [calcEnumAux]
          | some x0 =>
              have hih := ih (x0 + 1) j hj
              simp only [calcEnumAux, List.getD_cons_succ]
              rw [hih]
              cases hc : rest.getD j none with
              | some x => simp
              | none =>
                  cases j with
                  | zero => simp [calcEnumAux]
                  | succ k => simp [calcEnumAux]

/-- C10: enum constant values are assigned in declaration order: an
explicit (evaluated) value expression resets the running value, a constant
without one gets the preceding constant's value plus one, and a first
constant without one gets 0; `get_enum_value` answers every query from the
computed list. -/
theorem c10_enum_values (cs : List (Option Int)) (i : Nat)
    (h : i < cs.length) :
    (calculateEnumValues cs).length = cs.length ∧
    get_enum_value cs i = some ((calculateEnumValues cs).getD i 0) ∧
    (calculateEnumValues cs).getD i 0 =
      (match cs.getD i none with
       | some x => x
       | none => if i = 0 then 0 else (calculateEnumValues cs).getD (i - 1) 0 + 1) := by
  refine ⟨calcEnumAux_length 0 cs, ?_, ?_⟩
  · have hlen : i < (calculateEnumValues cs).length := by
      rw [calculateEnumValues, calcEnumAux_length]; exact h
    simp [get_enum_value, List.getElem?_eq_getElem, hlen, List.getD_eq_getElem _ _ hlen]
  · exact calcEnumAux_getD 0 cs i h

/-- Witness for C10 at `enum { A, B = 5, C }`: values are 0, 5, 6. -/
theorem c10_enum_values_witness :
    2 < ([none, some 5, none] : List (Option Int)).length ∧
    ((calculateEnumValues [none, some 5, none]).length = 3 ∧
     get_enum_value [none, some 5, none] 2 =
       some ((calculateEnumValues [none, some 5, none]).getD 2 0) ∧
     (calculateEnumValues [none, some 5, none]).getD 2 0 =
       (match ([none, some 5, none] : List (Option Int)).getD 2 none with
        | some x => x
        | none => if 2 = 0 then 0
                  else (calculateEnumValues [none, some 5, none]).getD (2 - 1) 0 + 1)) :=
  ⟨by decide, c10_enum_values [none, some 5, none] 2 (by decide)⟩

end CCtx

namespace Burs

/-- Expression trees as consumed by the tree matcher
(`ppci.utils.tree.Tree`): a name and child subtrees. -/
inductive Tree where
  | node (name : String) (children : List Tree)

def Tree.name : Tree → String
  | .node n _ => n

def Tree.children : Tree → List Tree
  | .node _ cs => cs

/-- A BURS rule (`Rule(non_term, tree pattern, cost, acceptance, template)`).
The template is consumed only by `apply_rules`, which is outside the
labeling claims, and is omitted here. -/
structure Rule where
  nonTerm : String
  tree : Tree
  cost : Nat
  acceptance : Option (Tree → Bool)

/-- The rule store (`BurgSystem` from `ppci.pyburg`, external to src/):
declared terminal symbols and the rule list; a rule's number is its index. -/
structure BurgSys where
  terminals : List String
  rules : List Rule

/-- Modelled from the spec: the per-tree `State`
(`ppci.codegen.treematcher.State`, not part of src/) — for each
non-terminal goal the best known cost and the rule index achieving it;
`set_cost` records only if cheaper ("If `cost < state.get_cost(rule.non_term)`,
record"). -/
def TState := List (String × (Nat × Nat))

def TState.getCost (st : TState) (nt : String) : Option Nat :=
  (List.lookup nt st).map (·.1)

def TState.hasGoal (st : TState) (nt : String) : Bool :=
  (List.lookup nt st).isSome

def TState.setCost : TState → String → Nat → Nat → TState
  | [], nt, c, nr => [(nt, (c, nr))]
  | (k, v) :: rest, nt, c, nr =>
      if k == nt then
        (if c < v.1 then (k, (c, nr)) :: rest else (k, v) :: rest)
      else (k, v) :: TState.setCost rest nt c nr

/-- Labeled tree: `burm_label` assigns each node a `State`. -/
inductive LTree where
  | node (name : String) (children : List LTree) (state : TState)

def LTree.name : LTree → String
  | .node n _ _ => n

def LTree.children : LTree → List LTree
  | .node _ cs _ => cs

def LTree.state : LTree → TState
  | .node _ _ st => st

/-- `get_rules_for_root`: the rules (with their numbers) whose pattern root
is the given symbol. -/
def getRulesForRoot (sys : BurgSys) (name : String) : List (Nat × Rule) :=
  sys.rules.enum.filter (fun p => p.2.tree.name == name)

/-- A chain rule: a rule whose pattern is a single non-terminal. -/
def isChainRule (sys : BurgSys) (r : Rule) : Bool :=
  match r.tree with
  | .node n [] => !(sys.terminals.contains n)
  | _ => false

/-- `chain_rules_for_nt`: the chain rules converting from the given
non-terminal. -/
def chainRulesForNt (sys : BurgSys) (nt : String) : List (Nat × Rule) :=
  sys.rules.enum.filter (fun p => isChainRule sys p.2 && p.2.tree.name == nt)

/- `tree_terminal_equal`: the pattern matches the tree when terminal names
and arities agree; a non-terminal pattern leaf matches any subtree. -/
mutual
def treeTerminalEqual (sys : BurgSys) : Tree → Tree → Bool
  | t, .node pn pcs =>
      if sys.terminals.contains pn then
        match t with
        | .node tn tcs =>
            tn == pn && tcs.length == pcs.length && allTerminalEqual sys tcs pcs
      else true
def allTerminalEqual (sys : BurgSys) : List Tree → List Tree → Bool
  | _, [] => true
  | [], _ :: _ => true
  | t :: ts, p :: ps => treeTerminalEqual sys t p && allTerminalEqual sys ts ps
end

/- `get_nts`: the non-terminal leaves of a pattern, in preorder. -/
mutual
def getNts (sys : BurgSys) : Tree → List String
  | .node n cs => if sys.terminals.contains n then getNtsList sys cs else [n]
def getNtsList (sys : BurgSys) : List Tree → List String
  | [] => []
  | t :: ts => getNts sys t ++ getNtsList sys ts
end

/- `get_kids`: the subtrees of the (labeled) tree at the pattern's
non-terminal leaf positions, in preorder. -/
mutual
def getKids (sys : BurgSys) : LTree → Tree → List LTree
  | lt, .node pn pcs =>
      if sys.terminals.contains pn then kidsList sys lt.children pcs else [lt]
def kidsList (sys : BurgSys) : List LTree → List Tree → List LTree
  | _, [] => []
  | [], _ :: _ => []
  | l :: ls, p :: ps => getKids sys l p ++ kidsList sys ls ps
end

/-- `all(x.state.has_goal(y) for x, y in zip(kids, nts))`. -/
def allHaveGoals : List LTree → List String → Bool
  | k :: ks, n :: ns => k.state.hasGoal n && allHaveGoals ks ns
  | _, _ => true

/-- `sum(x.state.get_cost(y) for x, y in zip(kids, nts))`. -/
def sumCosts : List LTree → List String → Nat
  | k :: ks, n :: ns => (k.state.getCost n).getD 0 + sumCosts ks ns
  | _, _ => 0

/-- The chain-rule closure loop of `burm_label`: for every chain rule from
the just-recorded non-terminal, record `cost + cr.cost` if cheaper. -/
def applyChainRules (baseCost : Nat) : TState → List (Nat × Rule) → TState
  | st, [] => st
  | st, (crnr, cr) :: rest =>
      applyChainRules baseCost (st.setCost cr.nonTerm (baseCost + cr.cost) crnr) rest

/-- Whether the labeling loop applies a rule at a node: the pattern matches,
every kid state has the required goal, and the acceptance check passes. -/
def ruleFeasible (sys : BurgSys) (t : Tree) (lkids : List LTree) (r : Rule) : Bool :=
  treeTerminalEqual sys t r.tree &&
  allHaveGoals (getKids sys (.node t.name lkids []) r.tree) (getNts sys r.tree) &&
  (match r.acceptance with | some f => f t | none => true)

/-- The cost the labeling loop computes for an applied rule:
kid costs plus the rule's own cost. -/
def ruleCost (sys : BurgSys) (t : Tree) (lkids : List LTree) (r : Rule) : Nat :=
  sumCosts (getKids sys (.node t.name lkids []) r.tree) (getNts sys r.tree) + r.cost

/-- The rule loop of `burm_label` over the candidate rules. -/
def processRules (sys : BurgSys) (t : Tree) (lkids : List LTree) :
    TState → List (Nat × Rule) → TState
  | st, [] => st
  | st, (nr, r) :: rest =>
      let st :=
        if ruleFeasible sys t lkids r then
          let cost := ruleCost sys t lkids r
          applyChainRules cost (st.setCost r.nonTerm cost nr)
            (chainRulesForNt sys r.nonTerm)
        else st
      processRules sys t lkids st rest

/-- The state `burm_label` computes for one node from its labeled children
(`tree.state = State()`, then the rule loop with chain-rule closure). -/
def labelState (sys : BurgSys) (t : Tree) (lkids : List LTree) : TState :=
  processRules sys t lkids [] (getRulesForRoot sys t.name)

/- `TreeSelector.burm_label`
(src/ppci/codegen/instructionselector.py lines 67-96): label all nodes
bottom up. -/
mutual
def burm_label (sys : BurgSys) : Tree → LTree
  | .node n cs =>
      let lkids := burmLabelList sys cs
      .node n lkids (labelState sys (.node n cs) lkids)
def burmLabelList (sys : BurgSys) : List Tree → List LTree
  | [] => []
  | t :: ts => burm_label sys t :: burmLabelList sys ts
end

theorem getCost_setCost (st : List (String × (Nat × Nat))) (nt : String)
    (c nr : Nat) (y : String) :
    TState.getCost (TState.setCost st nt c nr) y =
      if y = nt then
        some (match TState.getCost st nt with
              | none => c
              | some v0 => if c < v0 then c else v0)
      else TState.getCost st y := by
  induction st with
  | nil =>
      by_cases hy : y = nt
      · subst hy; simp [TState.setCost, TState.getCost, List.lookup]
      · simp [TState.setCost, TState.getCost, List.lookup, hy,
          beq_eq_false_iff_ne.mpr hy]
  | cons p rest ih =>
      obtain ⟨k, cv, rv⟩ := p
      by_cases hk : k = nt
      · subst hk
        by_cases hy : y = k
        · subst hy
          by_cases hc : c < cv <;>
            simp [TState.setCost, TState.getCost, List.lookup, hc]
        · have hbeq : (y == k) = false := beq_eq_false_iff_ne.mpr hy
          by_cases hc : c < cv <;>
            simp [TState.setCost, TState.getCost, List.lookup, hc, hbeq, hy]
      · have hbeq : (k == nt) = false := beq_eq_false_iff_ne.mpr hk
        by_cases hy : y = k
        · subst hy
          have hynt : ¬ y = nt := hk
          simp [TState.setCost, TState.getCost, List.lookup, hbeq, hynt]
        · have hbeq2 : (y == k) = false := beq_eq_false_iff_ne.mpr hy
          have hntk : (nt == k) = false :=
            beq_eq_false_iff_ne.mpr (fun h => hk h.symm)
          simp only [TState.setCost, hbeq, Bool.false_eq_true, if_false,
            TState.getCost, List.lookup, hbeq2, hntk]
          simpa only [TState.getCost, List.lookup] using ih

theorem setCost_bound (st : List (String × (Nat × Nat))) (nt : String)
    (c nr : Nat) :
    ∃ v, TState.getCost (TState.setCost st nt c nr) nt = some v ∧ v ≤ c := by
  rw [getCost_setCost st nt c nr nt]
  simp only [if_pos rfl]
  cases h : TState.getCost st nt with
  | none => exact ⟨c, rfl, le_refl c⟩
  | some v0 =>
      by_cases hc : c < v0
      · exact ⟨c, by simp [hc], le_refl c⟩
      · exact ⟨v0, by simp [hc], by omega⟩

/-- Later states of the labeling loop only improve recorded costs. -/
def stateLE (a b : List (String × (Nat × Nat))) : Prop :=
  ∀ y v, TState.getCost b y = some v → ∃ w, TState.getCost a y = some w ∧ w ≤ v

theorem stateLE_refl (a : List (String × (Nat × Nat))) : stateLE a a :=
  fun y v h => ⟨v, h, le_refl v⟩

theorem stateLE_trans {a b c : List (String × (Nat × Nat))}
    (h1 : stateLE a b) (h2 : stateLE b c) : stateLE a c := by
  intro y v hv
  obtain ⟨w, hw, hwv⟩ := h2 y v hv
  obtain ⟨u, hu, huw⟩ := h1 y w hw
  exact ⟨u, hu, le_trans huw hwv⟩

theorem setCost_stateLE (st : List (String × (Nat × Nat))) (nt : String)
    (c nr : Nat) : stateLE (TState.setCost st nt c nr) st := by
  intro y v hv
  rw [getCost_setCost st nt c nr y]
  by_cases hy : y = nt
  · subst hy
    rw [hv]
    by_cases hc : c < v
    · exact ⟨c, by simp [hc], by omega⟩
    · exact ⟨v, by simp [hc], le_refl v⟩
  · exact ⟨v, by simp [hy, hv], le_refl v⟩

theorem applyChainRules_stateLE (base : Nat)
    (st : List (String × (Nat × Nat))) (l : List (Nat × Rule)) :
    stateLE (applyChainRules base st l) st := by
  induction l generalizing st with
  | nil => exact stateLE_refl st
  | cons p rest ih =>
      obtain ⟨crnr, cr⟩ := p
      exact stateLE_trans (ih _) (setCost_stateLE st cr.nonTerm (base + cr.cost) crnr)

theorem processRules_stateLE (sys : BurgSys) (t : Tree) (lkids : List LTree)
    (st : List (String × (Nat × Nat))) (rs : List (Nat × Rule)) :
    stateLE (processRules sys t lkids st rs) st := by
  induction rs generalizing st with
  | nil => exact stateLE_refl st
  | cons p rest ih =>
      obtain ⟨nr, r⟩ := p
      by_cases hf : ruleFeasible sys t lkids r = true
      · simp only [processRules, hf, if_true]
        exact stateLE_trans (ih _)
          (stateLE_trans (applyChainRules_stateLE _ _ _)
            (setCost_stateLE st r.nonTerm (ruleCost sys t lkids r) nr))
      · simp only [processRules, hf, Bool.false_eq_true, if_false]
        exact ih st

theorem applyChainRules_bound (base : Nat)
    (st : List (String × (Nat × Nat))) (l : List (Nat × Rule))
    (crnr : Nat) (cr : Rule) (hmem : (crnr, cr) ∈ l) :
    ∃ v, TState.getCost (applyChainRules base st l) cr.nonTerm = some v ∧
      v ≤ base + cr.cost := by
  induction l generalizing st with
  | nil => cases hmem
  | cons p rest ih =>
      obtain ⟨nr0, cr0⟩ := p
      rcases List.mem_cons.mp hmem with heq | hrest
      · cases heq
        simp only [applyChainRules]
        obtain ⟨v, hv, hvle⟩ :=
          setCost_bound st cr.nonTerm (base + cr.cost) crnr
        obtain ⟨w, hw, hwv⟩ :=
          applyChainRules_stateLE base _ rest cr.nonTerm v hv
        exact ⟨w, hw, le_trans hwv hvle⟩
      · exact ih _ hrest

theorem processRules_bound (sys : BurgSys) (t : Tree) (lkids : List LTree)
    (st : List (String × (Nat × Nat))) (rs : List (Nat × Rule))
    (nr : Nat) (r : Rule) (hmem : (nr, r) ∈ rs)
    (hfeas : ruleFeasible sys t lkids r = true)
    (crnr : Nat) (cr : Rule)
    (hcr : (crnr, cr) ∈ chainRulesForNt sys r.nonTerm) :
    ∃ v, TState.getCost (processRules sys t lkids st rs) cr.nonTerm = some v ∧
      v ≤ ruleCost sys t lkids r + cr.cost := by
  induction rs generalizing st with
  | nil => cases hmem
  | cons p rest ih =>
      obtain ⟨nr0, r0⟩ := p
      rcases List.mem_cons.mp hmem with heq | hrest
      · cases heq
        simp only [processRules, hfeas, if_true]
        obtain ⟨v, hv, hvle⟩ :=
          applyChainRules_bound (ruleCost sys t lkids r)
            (TState.setCost st r.nonTerm (ruleCost sys t lkids r) nr)
            (chainRulesForNt sys r.nonTerm) crnr cr hcr
        obtain ⟨w, hw, hwv⟩ :=
          processRules_stateLE sys t lkids _ rest cr.nonTerm v hv
        exact ⟨w, hw, le_trans hwv hvle⟩
      · by_cases hf0 : ruleFeasible sys t lkids r0 = true
        · simp only [processRules, hf0, if_true]
          exact ih _ hrest
        · simp only [processRules, hf0, Bool.false_eq_true, if_false]
          exact ih _ hrest

/-- C8 (amended): after `burm_label` labels a node, for every rule the
labeling loop applied (pattern matches, kid goals available, acceptance
passes) with computed cost `c`, and every chain rule `nt' ← rule.non_term`
with chain cost `cc`, the node's state records a cost for `nt'` of at most
`c + cc`.  (One chain step: the closure in the source is not transitive.) -/
theorem c8_chain_rule_cost_bound (sys : BurgSys) (n : String) (cs : List Tree)
    (nr : Nat) (r : Rule)
    (hmem : (nr, r) ∈ getRulesForRoot sys n)
    (hfeas : ruleFeasible sys (.node n cs) (burmLabelList sys cs) r = true)
    (crnr : Nat) (cr : Rule)
    (hcr : (crnr, cr) ∈ chainRulesForNt sys r.nonTerm) :
    ∃ v, TState.getCost (burm_label sys (.node n cs)).state cr.nonTerm = some v ∧
      v ≤ ruleCost sys (.node n cs) (burmLabelList sys cs) r + cr.cost := by
  have hb : burm_label sys (.node n cs) =
      .node n (burmLabelList sys cs)
        (labelState sys (.node n cs) (burmLabelList sys cs)) := by
    simp [burm_label]
  rw [hb]
  simp only [LTree.state, labelState]
  exact processRules_bound sys (.node n cs) (burmLabelList sys cs) []
    (getRulesForRoot sys n) nr r hmem hfeas crnr cr hcr

/-- The rule `reg ← CONSTI32` at cost 1. -/
def burs_r0 : Rule := ⟨"reg", .node "CONSTI32" [], 1, none⟩

/-- The chain rule `stm ← reg` at cost 1. -/
def burs_c1 : Rule := ⟨"stm", .node "reg" [], 1, none⟩

/-- The chain rule `foo ← stm` at cost 1. -/
def burs_c2 : Rule := ⟨"foo", .node "stm" [], 1, none⟩

/-- A small BURS system with one base rule and a two-step chain. -/
def sys3 : BurgSys := ⟨["CONSTI32"], [burs_r0, burs_c1, burs_c2]⟩

/-- The leaf tree `CONSTI32`. -/
def exTree : Tree := .node "CONSTI32" []

/-- Witness for the one-step bound at `sys3`: rule `reg ← CONSTI32` is
applied at cost 1, and the chain rule `stm ← reg` yields a recorded cost
for `stm` of at most 2. -/
theorem c8_chain_rule_cost_bound_witness :
    ((0, burs_r0) ∈ getRulesForRoot sys3 "CONSTI32" ∧
     ruleFeasible sys3 (.node "CONSTI32" []) (burmLabelList sys3 []) burs_r0 = true ∧
     (1, burs_c1) ∈ chainRulesForNt sys3 burs_r0.nonTerm) ∧
    (∃ v, TState.getCost (burm_label sys3 (.node "CONSTI32" [])).state
        burs_c1.nonTerm = some v ∧
      v ≤ ruleCost sys3 (.node "CONSTI32" []) (burmLabelList sys3 []) burs_r0 +
        burs_c1.cost) :=
  ⟨⟨by rw [show getRulesForRoot sys3 "CONSTI32" = [(0, burs_r0)] from rfl]
       exact List.mem_singleton.mpr rfl,
    rfl,
    by rw [show chainRulesForNt sys3 burs_r0.nonTerm = [(1, burs_c1)] from rfl]
       exact List.mem_singleton.mpr rfl⟩,
   c8_chain_rule_cost_bound sys3 "CONSTI32" [] 0 burs_r0
     (by rw [show getRulesForRoot sys3 "CONSTI32" = [(0, burs_r0)] from rfl]
         exact List.mem_singleton.mpr rfl)
     rfl 1 burs_c1
     (by rw [show chainRulesForNt sys3 burs_r0.nonTerm = [(1, burs_c1)] from rfl]
         exact List.mem_singleton.mpr rfl)⟩

/-- C8 counterexample to the multi-step part: in `sys3` the rule
`reg ← CONSTI32` is applied at cost 1 and `foo` is reachable from `reg`
through the chain rules `stm ← reg` and `foo ← stm` with summed chain cost
2, so the claim demands a recorded cost for `foo` of at most 3 — but the
closure in `burm_label` is applied for one step only, `stm` gets cost 2,
and no cost at all is recorded for `foo`. -/
theorem c8_multi_step_chain_counterexample :
    getRulesForRoot sys3 "CONSTI32" = [(0, burs_r0)] ∧
    ruleFeasible sys3 exTree (burmLabelList sys3 []) burs_r0 = true ∧
    ruleCost sys3 exTree (burmLabelList sys3 []) burs_r0 = 1 ∧
    chainRulesForNt sys3 "reg" = [(1, burs_c1)] ∧
    chainRulesForNt sys3 "stm" = [(2, burs_c2)] ∧
    burs_c1.nonTerm = "stm" ∧ burs_c1.cost = 1 ∧
    burs_c2.nonTerm = "foo" ∧ burs_c2.cost = 1 ∧
    TState.getCost (burm_label sys3 exTree).state "reg" = some 1 ∧
    TState.getCost (burm_label sys3 exTree).state "stm" = some 2 ∧
    TState.getCost (burm_label sys3 exTree).state "foo" = none ∧
    ¬ ∃ v, TState.getCost (burm_label sys3 exTree).state "foo" = some v ∧
        v ≤ 1 + (1 + 1) := by
  refine ⟨rfl, rfl, rfl, rfl, rfl, rfl, rfl, rfl, rfl, rfl, rfl, rfl, ?_⟩
  rintro ⟨v, hv, -⟩
  rw [show TState.getCost (burm_label sys3 exTree).state "foo" = none from rfl] at hv
  cases hv

end Burs

namespace Cgen

/-- IR primitive types (`ppci.ir`): the set the c3 code generator uses. -/
inductive IrTyp where
  | i8 | i32 | f64 | ptrT
  deriving DecidableEq, Repr

/-- An IR value: instructions are values in the source (emit returns the
instruction object, used as an operand); here a value is its creation
number plus its IR type (`.ty` is read by `gen_assignment_stmt` and
`gen_binop`). -/
structure Value where
  id : Nat
  ty : IrTyp
  deriving DecidableEq, Repr

/-- Payload of an `ir.Const`.  A float literal's numeric payload is carried
as the integer it was written with; no claim computes with float values. -/
inductive ConstVal where
  | intV (v : Int)
  | floatV (v : Int)
  | blob (bs : List Nat)
  deriving DecidableEq, Repr

/-- IR instructions as the c3 code generator emits them.  Value-producing
instructions carry the `Value` they define. -/
inductive Instr where
  | jump (target : Nat)
  | cjump (a : Value) (op : String) (b : Value) (labYes labNo : Nat)
  | constI (res : Value) (v : ConstVal) (name : String)
  | addr (res : Value) (of : Value) (name : String)
  | load (res : Value) (addr : Value) (name : String)
  | store (v : Value) (addr : Value) (volatile : Bool)
  | binop (res : Value) (a : Value) (op : String) (b : Value) (name : String)
  | alloc (res : Value) (name : String) (size : Nat)
  | intToPtr (res : Value) (v : Value) (name : String)
  | ptrToInt (res : Value) (v : Value) (name : String)
  | intToByte (res : Value) (v : Value) (name : String)
  | byteToInt (res : Value) (v : Value) (name : String)
  | addI (res : Value) (a b : Value) (name : String)
  | mulI (res : Value) (a b : Value) (name : String)
  | call (res : Value) (fname : String) (args : List Value) (resName : String)
  | ret (v : Value)
  deriving DecidableEq, Repr

/-- An IR function as the builder sees it: name, parameters (in order,
with their names), and the block numbers of the synthetic preamble (the
function's automatically created first block) and the epilogue
(`epiloog`). -/
structure FuncInfo where
  name : String
  params : List (String × Value)
  preamble : Nat
  epilogue : Nat
  deriving DecidableEq, Repr

/-- The state of the IR builder and code generator: blocks (in creation
order, id with instruction list), the cursor, fresh-id counters, the IR
functions, the current function, `context.var_map` (keyed by symbol name),
the diagnostics collected by `CodeGenerator.error`, the `ok` flag and the
current source location. -/
structure CGState where
  blocks : List (Nat × List Instr)
  curBlock : Option Nat
  nextBlock : Nat
  nextVal : Nat
  funcs : List FuncInfo
  curFunc : Option Nat
  varMap : List (String × Value)
  errors : List (String × Option Nat)
  ok : Bool
  curLoc : Option Nat
  deriving DecidableEq, Repr

/-- Raised errors: `SemanticError` (message, location) is caught at the
statement boundary; `fault` models every other Python exception
(`NotImplementedError`, assertion failures, attribute/key errors), which
propagates. -/
inductive Err where
  | semantic (msg : String) (loc : Option Nat)
  | fault (msg : String)
  deriving DecidableEq, Repr

/-- The code-generation monad: state threading with exceptions that keep
the state mutated so far (Python objects stay mutated when an exception
propagates). -/
def CGM (α : Type) : Type := CGState → Except Err α × CGState

def CGM.pure {α : Type} (a : α) : CGM α := fun s => (.ok a, s)

def CGM.bind {α β : Type} (m : CGM α) (f : α → CGM β) : CGM β := fun s =>
  match m s with
  | (.ok a, s1) => f a s1
  | (.error e, s1) => (.error e, s1)

instance : Monad CGM where
  pure := CGM.pure
  bind := CGM.bind

@[simp] theorem CGM.pure_apply {α : Type} (a : α) (s : CGState) :
    (CGM.pure a) s = (.ok a, s) := rfl

@[simp] theorem CGM.bind_apply {α β : Type} (m : CGM α) (f : α → CGM β)
    (s : CGState) :
    (CGM.bind m f) s =
      match m s with
      | (.ok a, s1) => f a s1
      | (.error e, s1) => (.error e, s1) := rfl

@[simp] theorem CGM.monad_pure_eq {α : Type} (a : α) :
    (Pure.pure a : CGM α) = CGM.pure a := rfl

@[simp] theorem CGM.monad_bind_eq {α β : Type} (m : CGM α) (f : α → CGM β) :
    (m >>= f) = CGM.bind m f := rfl

def throwErr {α : Type} (e : Err) : CGM α := fun s => (.error e, s)

def getState : CGM CGState := fun s => (.ok s, s)

def modifyState (f : CGState → CGState) : CGM Unit := fun s => (.ok (), f s)

def liftE {α : Type} (e : Except Err α) : CGM α := fun s =>
  match e with
  | .ok a => (.ok a, s)
  | .error er => (.error er, s)

/-- Modelled from the spec (§4.D): `Builder.newBlock` allocates a fresh
block, unattached to control flow until jumped to. -/
def newBlock : CGM Nat := fun s =>
  (.ok s.nextBlock,
   { s with blocks := s.blocks ++ [(s.nextBlock, [])],
            nextBlock := s.nextBlock + 1 })

/-- Modelled from the spec (§4.D): `Builder.setBlock` moves the cursor. -/
def setBlock (b : Nat) : CGM Unit :=
  modifyState (fun s => { s with curBlock := some b })

/-- Modelled from the spec (§4.D): `Builder.setLoc`. -/
def setLoc (l : Nat) : CGM Unit :=
  modifyState (fun s => { s with curLoc := some l })

/-- Modelled from the spec (§4.C-4.E): `Builder.new_function` creates the
IR function together with its synthetic preamble block (the function's
automatically created first block) and its empty epilogue block
(`epiloog`); returns the function (by index). -/
def newFunction (name : String) : CGM Nat := fun s =>
  let p := s.nextBlock
  let e := s.nextBlock + 1
  (.ok s.funcs.length,
   { s with blocks := s.blocks ++ [(p, []), (e, [])],
            nextBlock := s.nextBlock + 2,
            funcs := s.funcs ++ [⟨name, [], p, e⟩] })

/-- Modelled from the spec (§4.D-4.E): `Builder.setFunction`; selecting a
function places the cursor at its synthetic preamble, clearing the
function leaves the cursor where it is. -/
def setFunction (f : Option Nat) : CGM Unit := fun s =>
  match f with
  | none => (.ok (), { s with curFunc := none })
  | some fi =>
      match s.funcs[fi]? with
      | none => (.error (.fault "setFunction: no such function"), s)
      | some fn => (.ok (), { s with curFunc := some fi, curBlock := some fn.preamble })

/-- Append an instruction to the block with the given id. -/
def appendToBlock (blocks : List (Nat × List Instr)) (b : Nat) (i : Instr) :
    List (Nat × List Instr) :=
  blocks.map (fun p => if p.1 = b then (p.1, p.2 ++ [i]) else p)

/-- `Builder.emit` for a value-producing instruction: append to the current
block, allocate the defined value.  Emitting with no current block is the
crash the source would hit, a fault. -/
def emitValue (ty : IrTyp) (mk : Value → Instr) : CGM Value := fun s =>
  match s.curBlock with
  | none => (.error (.fault "emit: no current block"), s)
  | some b =>
      let v : Value := ⟨s.nextVal, ty⟩
      (.ok v, { s with nextVal := s.nextVal + 1,
                       blocks := appendToBlock s.blocks b (mk v) })

/-- `Builder.emit` for an instruction that defines no value. -/
def emitEffect (i : Instr) : CGM Unit := fun s =>
  match s.curBlock with
  | none => (.error (.fault "emit: no current block"), s)
  | some b => (.ok (), { s with blocks := appendToBlock s.blocks b i })

def emitJump (t : Nat) : CGM Unit := emitEffect (.jump t)

def emitCJump (a : Value) (op : String) (b : Value) (labYes labNo : Nat) :
    CGM Unit := emitEffect (.cjump a op b labYes labNo)

def emitConst (v : ConstVal) (name : String) (ty : IrTyp) : CGM Value :=
  emitValue ty (fun r => .constI r v name)

def emitAddr (of : Value) (name : String) (ty : IrTyp) : CGM Value :=
  emitValue ty (fun r => .addr r of name)

def emitLoad (a : Value) (name : String) (ty : IrTyp) : CGM Value :=
  emitValue ty (fun r => .load r a name)

def emitStore (v a : Value) (volatile : Bool) : CGM Unit :=
  emitEffect (.store v a volatile)

def emitBinop (a : Value) (op : String) (b : Value) (name : String)
    (ty : IrTyp) : CGM Value :=
  emitValue ty (fun r => .binop r a op b name)

def emitAlloc (name : String) (size : Nat) : CGM Value :=
  emitValue .ptrT (fun r => .alloc r name size)

def emitIntToPtr (v : Value) (name : String) : CGM Value :=
  emitValue .ptrT (fun r => .intToPtr r v name)

def emitPtrToInt (v : Value) (name : String) : CGM Value :=
  emitValue .i32 (fun r => .ptrToInt r v name)

def emitIntToByte (v : Value) (name : String) : CGM Value :=
  emitValue .i8 (fun r => .intToByte r v name)

def emitByteToInt (v : Value) (name : String) : CGM Value :=
  emitValue .i32 (fun r => .byteToInt r v name)

def emitAdd (a b : Value) (name : String) (ty : IrTyp) : CGM Value :=
  emitValue ty (fun r => .addI r a b name)

def emitMul (a b : Value) (name : String) (ty : IrTyp) : CGM Value :=
  emitValue ty (fun r => .mulI r a b name)

def emitCall (fname : String) (args : List Value) (resName : String)
    (ty : IrTyp) : CGM Value :=
  emitValue ty (fun r => .call r fname args resName)

def emitReturn (v : Value) : CGM Unit := emitEffect (.ret v)

/-- `ir.Parameter(name, ty)` plus `ir_function.add_parameter`: a fresh
value recorded on the function, not emitted into a block. -/
def newParameter (fi : Nat) (pname : String) (ty : IrTyp) : CGM Value := fun s =>
  match s.funcs[fi]? with
  | none => (.error (.fault "newParameter: no such function"), s)
  | some fn =>
      let v : Value := ⟨s.nextVal, ty⟩
      (.ok v, { s with nextVal := s.nextVal + 1,
                       funcs := s.funcs.set fi
                         { fn with params := fn.params ++ [(pname, v)] } })

/-- `context.var_map[sym] = value` (dict update: newest binding wins). -/
def varMapInsert (n : String) (v : Value) : CGM Unit :=
  modifyState (fun s => { s with varMap := (n, v) :: s.varMap })

/-- `context.var_map[target]`; a missing key is a `KeyError`, a fault. -/
def varMapLookup (n : String) : CGM Value := fun s =>
  match s.varMap.lookup n with
  | some v => (.ok v, s)
  | none => (.error (.fault ("var_map: unmapped symbol " ++ n)), s)

/-- Pure form of `CodeGenerator.error`: record the diagnostic and clear
the ok flag (the source reports to `self.diag` and continues). -/
def recordErrorS (msg : String) (loc : Option Nat) (s : CGState) : CGState :=
  { s with ok := false, errors := s.errors ++ [(msg, loc)] }

def recordError (msg : String) (loc : Option Nat) : CGM Unit :=
  modifyState (recordErrorS msg loc)

/-- The epilogue block of a generated function (`ir_function.epiloog`). -/
def getEpilogue (fi : Nat) : CGM Nat := fun s =>
  match s.funcs[fi]? with
  | none => (.error (.fault "getEpilogue: no such function"), s)
  | some fn => (.ok fn.epilogue, s)

/-- The `try/except SemanticError` wrapper of `gen_stmt`: a semantic error
is reported through the diagnostics and lowering continues; any other
exception propagates. -/
def catchSemantic (m : CGM Unit) : CGM Unit := fun s =>
  match m s with
  | (.ok a, s1) => (.ok a, s1)
  | (.error (.semantic msg loc), s1) => (.ok (), recordErrorS msg loc s1)
  | (.error (.fault msg), s1) => (.error (.fault msg), s1)

end Cgen

namespace Cgen

/- c3 AST types (`ppci.c3.astnodes`, outside src/): base types by name
(`int`, `byte`, `bool`, `double`, `string`, `void`), pointer, array and
structure types.  `DefinedType` aliases are assumed resolved, so
`context.the_type` is the identity here. -/
mutual
inductive CTyp where
  | base (name : String)
  | pointer (ptype : CTyp)
  | arrayT (elementType : CTyp)
  | structT (fields : List CTypField)
inductive CTypField where
  | mk (fname : String) (ftyp : CTyp)
end

def CTypField.fname : CTypField → String
  | .mk n _ => n

def CTypField.ftyp : CTypField → CTyp
  | .mk _ t => t

/-- Modelled from the spec: `context.the_type` resolves type aliases; the
model carries none, so it is the identity. -/
def theType (t : CTyp) : CTyp := t

/- Modelled from the spec ("equal types → no-op"): `context.equal_types`
is structural type equality; the source also accepts a type name string,
rendered here as comparison with the corresponding `base` type. -/
mutual
def equalTypes : CTyp → CTyp → Bool
  | .base a, .base b => a == b
  | .pointer a, .pointer b => equalTypes a b
  | .arrayT a, .arrayT b => equalTypes a b
  | .structT fa, .structT fb => equalFieldList fa fb
  | _, _ => false
def equalFieldList : List CTypField → List CTypField → Bool
  | [], [] => true
  | .mk na ta :: ra, .mk nb tb :: rb =>
      na == nb && equalTypes ta tb && equalFieldList ra rb
  | _, _ => false
end

/-- A printable name for a type, used to build error message text (the
source interpolates the Python objects themselves). -/
def typName : CTyp → String
  | .base n => n
  | .pointer t => typName t ++ "*"
  | .arrayT t => typName t ++ "[]"
  | .structT _ => "struct"

/-- `hasField` on a structure type. -/
def hasField (fields : List CTypField) (f : String) : Bool :=
  fields.any (fun p => p.fname == f)

/-- `fieldType` on a structure type. -/
def fieldType (fields : List CTypField) (f : String) : Option CTyp :=
  (fields.find? (fun p => p.fname == f)).map (·.ftyp)

/-- Literal values (`ast.Literal.val`): a Python int, bool, float or str.
Floats are carried by their written integer payload; no claim computes
with them. -/
inductive LitVal where
  | intL (v : Int)
  | boolL (b : Bool)
  | floatL (v : Int)
  | strL (s : String)
  deriving DecidableEq, Repr

/-- Python truthiness of a literal value (`if expr.val:`). -/
def LitVal.truthy : LitVal → Bool
  | .intL v => v != 0
  | .boolL b => b
  | .floatL v => v != 0
  | .strL s => s != ""

/- c3 expressions.  Each node carries the `typ`, `lvalue` and `loc`
attributes the source reads and mutates during lowering; the generator
functions return the updated node. -/
mutual
inductive Expr where
  | mk (kind : ExprKind) (typ : CTyp) (lvalue : Bool) (loc : Nat)
inductive ExprKind where
  | binop (op : String) (a b : Expr)
  | unop (op : String) (a : Expr)
  | ident (name : String)
  | deref (ptr : Expr)
  | member (base : Expr) (field : String)
  | indexE (base : Expr) (i : Expr)
  | literal (val : LitVal)
  | typecast (toType : CTyp) (a : Expr)
  | sizeofE (queryTyp : CTyp)
  | funcCall (procName : String) (args : List Expr)
end

def Expr.kind : Expr → ExprKind
  | .mk k _ _ _ => k

def Expr.typ : Expr → CTyp
  | .mk _ t _ _ => t

def Expr.lvalue : Expr → Bool
  | .mk _ _ l _ => l

def Expr.loc : Expr → Nat
  | .mk _ _ _ o => o

/-- c3 statements (the closed set `gen_stmt` dispatches on). -/
inductive Stmt where
  | compound (statements : List Stmt) (loc : Nat)
  | emptyS (loc : Nat)
  | assignment (lval rval : Expr) (isShorthand : Bool) (shOp : String) (loc : Nat)
  | exprStmt (ex : Expr) (loc : Nat)
  | ifStmt (condition : Expr) (trueStatement falseStatement : Stmt) (loc : Nat)
  | returnStmt (expr : Expr) (loc : Nat)
  | whileStmt (condition : Expr) (statement : Stmt) (loc : Nat)
  | forStmt (init : Stmt) (condition : Expr) (statement : Stmt) (final : Stmt) (loc : Nat)

def Stmt.loc : Stmt → Nat
  | .compound _ o => o
  | .emptyS o => o
  | .assignment _ _ _ _ o => o
  | .exprStmt _ o => o
  | .ifStmt _ _ _ o => o
  | .returnStmt _ o => o
  | .whileStmt _ _ o => o
  | .forStmt _ _ _ _ o => o

/-- What `context.resolve_symbol` can return: a variable, a constant, a
module, or a function (package name, function name, parameter types,
return type). -/
inductive SymTarget where
  | var (name : String) (typ : CTyp)
  | constant (name : String) (typ : CTyp)
  | modul (name : String)
  | function (package : String) (fname : String)
      (paramTypes : List CTyp) (returnType : CTyp)

/-- Modelled from the spec: the front-end services the generator consumes
(the c3 `context`/scope machinery is outside src/): symbol resolution (in
the current scope and across modules), constant values, type checking
(`some (msg, loc)` is the raised SemanticError), `size_of`,
`get_common_type` (front-end provided, consulted on the operand types) and
the layout service behind `StructureType.fieldOffset`. -/
structure Ctx where
  resolveSymbol : String → Option SymTarget
  resolveQualified : String → String → Option SymTarget
  constantValue : String → Int
  checkType : CTyp → Option (String × Option Nat)
  sizeOf : CTyp → Nat
  getCommonType : CTyp → CTyp → CTyp
  fieldOffset : List CTypField → String → Int

/-- The result of `gen_expr_code`: an IR value, or the module sentinel
(the source's "ugly construct", consumed only by `gen_member_expr`). -/
inductive ExprRes where
  | value (v : Value)
  | moduleRef (name : String)

/-- A module sentinel flowing into a value position crashes the source a
little further on (no `.ty`/`.lvalue` on a module); the model faults at
the first value use. -/
def requireValue : ExprRes → CGM Value
  | .value v => CGM.pure v
  | .moduleRef m => throwErr (.fault ("module " ++ m ++ " used as a value"))

/-- `CodeGenerator.get_ir_type` (src/ppci/c3/codegenerator.py 139-159). -/
def get_ir_type (cty : CTyp) (loc : Nat) : Except Err IrTyp :=
  let cty := theType cty
  if equalTypes cty (.base "int") then .ok .i32
  else if equalTypes cty (.base "double") then .ok .i32
  else if equalTypes cty (.base "void") then .ok .i32
  else if equalTypes cty (.base "bool") then .ok .i32
  else if equalTypes cty (.base "byte") then .ok .i8
  else
    match cty with
    | .pointer _ => .ok .ptrT
    | _ => .error (.semantic
        ("Cannot determine the load type for \"" ++ typName cty ++ "\"") (some loc))

/-- `CodeGenerator.is_simple_type`: pointer or base type. -/
def is_simple_type (typ : CTyp) : Bool :=
  match theType typ with
  | .pointer _ => true
  | .base _ => true
  | _ => false

/-- Whether a type is an `ast.PointerType`. -/
def isPointerTyp : CTyp → Bool
  | .pointer _ => true
  | _ => false

/-- The message of the coercion error, `"Cannot use \'{}\' as \'{}\'"`. -/
def coerceMsg (typ wanted : CTyp) : String :=
  "Cannot use \x27" ++ typName typ ++ "\x27 as \x27" ++ typName wanted ++ "\x27"

/-- `CodeGenerator.do_coerce` (src/ppci/c3/codegenerator.py 198-220):
equal types pass through; int→ptr, int→byte and byte→int each emit one
conversion; anything else raises the semantic error. -/
def do_coerce (irVal : Value) (typ wanted : CTyp) (loc : Nat) : CGM Value :=
  if equalTypes typ wanted then
    CGM.pure irVal
  else if equalTypes (.base "int") typ && isPointerTyp wanted then
    emitIntToPtr irVal "coerce"
  else if equalTypes (.base "int") typ && equalTypes (.base "byte") wanted then
    emitIntToByte irVal "coerce"
  else if equalTypes (.base "byte") typ && equalTypes (.base "int") wanted then
    emitByteToInt irVal "coerce"
  else throwErr (.semantic (coerceMsg typ wanted) (some loc))

/-- `pack_string` (src/ppci/c3/codegenerator.py 13-18): 4-byte
little-endian length (`struct.pack` of format less-than I) followed by the
ASCII code points. -/
def pack_string (txt : String) : List Nat :=
  CCtx.natLEBytes 4 txt.length ++ txt.data.map Char.toNat

/-- The `typemap` of `gen_literal_expr`: the scope type for each literal
kind. -/
def literalTyp : LitVal → CTyp
  | .intL _ => .base "int"
  | .floatL _ => .base "double"
  | .boolL _ => .base "bool"
  | .strL _ => .base "string"

/-- `CodeGenerator.gen_literal_expr` (src/ppci/c3/codegenerator.py
553-582): set `lvalue = False` and the scope type; a string packs into a
`Const` blob followed by an `Addr` of it; int/bool/float emit one
`Const`. -/
def gen_literal_expr (e : Expr) : CGM (Value × Expr) :=
  match e with
  | .mk (.literal val) _ _ loc =>
      let e1 : Expr := .mk (.literal val) (literalTyp val) false loc
      match val with
      | .strL s =>
          CGM.bind (emitConst (.blob (pack_string s)) "strval" .i32) (fun c =>
          CGM.bind (emitAddr c "addroftxt" .i32) (fun v =>
          CGM.pure (v, e1)))
      | .intL v =>
          CGM.bind (emitConst (.intV v) "cnst" .i32) (fun c => CGM.pure (c, e1))
      | .boolL b =>
          CGM.bind (emitConst (.intV (if b then 1 else 0)) "bool_cnst" .i32)
            (fun c => CGM.pure (c, e1))
      | .floatL v =>
          CGM.bind (emitConst (.floatV v) "bool_cnst" .f64)
            (fun c => CGM.pure (c, e1))
  | _ => throwErr (.fault "gen_literal_expr: not a literal")

end Cgen

namespace Cgen

/- The recursive lowering functions of `CodeGenerator`
(src/ppci/c3/codegenerator.py).  The mutual recursion is indexed by a fuel
argument so that the definitions reduce computationally; every theorem
below either holds for all fuel values or takes the fuel as given.
Exhausted fuel is a fault, which no claim conflates with source behavior
(all success results are fuel-independent once the fuel covers the
recursion depth). -/
mutual

/-- `gen_expr_code` (lines 369-418): dispatch on the expression kind;
returns the IR value (or the module sentinel) and the mutated node. -/
def gen_expr_code : Nat → Ctx → Expr → CGM (ExprRes × Expr)
  | 0, _, _ => throwErr (.fault "recursion limit")
  | fuel + 1, ctx, e =>
      match e with
      | .mk (.binop _ _ _) _ _ _ => do
          let (v, e') ← gen_binop fuel ctx e
          pure (.value v, e')
      | .mk (.unop _ _) _ _ _ => do
          let (v, e') ← gen_unop fuel ctx e
          pure (.value v, e')
      | .mk (.ident name) _ _ loc =>
          (match ctx.resolveSymbol name with
           | none => throwErr (.semantic ("Unknown symbol " ++ name) (some loc))
           | some (.var vname vtyp) => do
               let v ← varMapLookup vname
               pure (ExprRes.value v, Expr.mk (.ident name) vtyp true loc)
           | some (.constant cname ctyp2) => do
               let c ← emitConst (.intV (ctx.constantValue cname)) cname .i32
               pure (ExprRes.value c, Expr.mk (.ident name) ctyp2 false loc)
           | some (.modul mname) => CGM.pure (ExprRes.moduleRef mname, e)
           | some (.function _ _ _ _) =>
               throwErr (.fault "identifier resolved to a function"))
      | .mk (.deref _) _ _ _ => do
          let (v, e') ← gen_dereference fuel ctx e
          pure (.value v, e')
      | .mk (.member _ _) _ _ _ => do
          let (v, e') ← gen_member_expr fuel ctx e
          pure (.value v, e')
      | .mk (.indexE _ _) _ _ _ => do
          let (v, e') ← gen_index_expr fuel ctx e
          pure (.value v, e')
      | .mk (.literal _) _ _ _ => do
          let (v, e') ← gen_literal_expr e
          pure (.value v, e')
      | .mk (.typecast _ _) _ _ _ => do
          let (v, e') ← gen_type_cast fuel ctx e
          pure (.value v, e')
      | .mk (.sizeofE q) _ _ loc =>
          (match ctx.checkType q with
           | some (m, l) => throwErr (.semantic m l)
           | none => do
               let c ← emitConst (.intV (ctx.sizeOf q)) "sizeof" .i32
               pure (ExprRes.value c, Expr.mk (.sizeofE q) (.base "int") false loc))
      | .mk (.funcCall _ _) _ _ _ => do
          let (v, e') ← gen_function_call fuel ctx e
          pure (.value v, e')

/-- `make_rvalue_expr` (lines 352-367): lower, then load when the node is
an l-value. -/
def make_rvalue_expr : Nat → Ctx → Expr → CGM (Value × Expr)
  | 0, _, _ => throwErr (.fault "recursion limit")
  | fuel + 1, ctx, e => do
      let (res, e') ← gen_expr_code fuel ctx e
      let v ← requireValue res
      if e'.lvalue then do
        let lt ← liftE (get_ir_type e'.typ e'.loc)
        let lv ← emitLoad v "loaded" lt
        pure (lv, e')
      else
        pure (v, e')

/-- The dispatch part of `gen_cond_code` (lines 312-346, before the final
boolean verification). -/
def genCondDispatch : Nat → Ctx → Expr → Nat → Nat → CGM Expr
  | 0, _, _, _, _ => throwErr (.fault "recursion limit")
  | fuel + 1, ctx, e, bbtrue, bbfalse =>
      match e with
      | .mk (.binop op a b) _ lv loc =>
          if op == "or" then do
            let second ← newBlock
            let a' ← gen_cond_code fuel ctx a bbtrue second
            setBlock second
            let b' ← gen_cond_code fuel ctx b bbtrue bbfalse
            pure (Expr.mk (.binop op a' b') (.base "bool") lv loc)
          else if op == "and" then do
            let second ← newBlock
            let a' ← gen_cond_code fuel ctx a second bbfalse
            setBlock second
            let b' ← gen_cond_code fuel ctx b bbtrue bbfalse
            pure (Expr.mk (.binop op a' b') (.base "bool") lv loc)
          else if op == "==" || op == ">" || op == "<" ||
              op == "!=" || op == "<=" || op == ">=" then do
            let (ta, a') ← make_rvalue_expr fuel ctx a
            let (tb, b') ← make_rvalue_expr fuel ctx b
            if equalTypes a'.typ b'.typ then do
              emitCJump ta op tb bbtrue bbfalse
              pure (Expr.mk (.binop op a' b') (.base "bool") lv loc)
            else
              throwErr (.semantic
                ("Types unequal " ++ typName a'.typ ++ " != " ++ typName b'.typ)
                (some loc))
          else
            throwErr (.semantic ("non-bool: " ++ op) (some loc))
      | .mk (.literal val) _ _ _ => do
          let (_, e1) ← gen_expr_code fuel ctx e
          if val.truthy then emitJump bbtrue else emitJump bbfalse
          pure e1
      | _ => throwErr (.fault "Unknown cond")

/-- `gen_cond_code` (lines 312-350): dispatch, then verify the condition's
type is boolean, reporting `Condition must be boolean` otherwise. -/
def gen_cond_code : Nat → Ctx → Expr → Nat → Nat → CGM Expr
  | 0, _, _, _, _ => throwErr (.fault "recursion limit")
  | fuel + 1, ctx, e, bbtrue, bbfalse => do
      let e' ← genCondDispatch fuel ctx e bbtrue bbfalse
      if equalTypes e'.typ (.base "bool") then pure e'
      else do
        recordError "Condition must be boolean" (some e'.loc)
        pure e'

/-- `gen_stmt` (lines 161-189): set the source location, dispatch on the
statement kind; a `SemanticError` is reported and lowering continues. -/
def gen_stmt : Nat → Ctx → Stmt → CGM Unit
  | 0, _, _ => throwErr (.fault "recursion limit")
  | fuel + 1, ctx, code =>
      catchSemantic (do
        setLoc code.loc
        match code with
        | .compound stmts _ => genStmtList fuel ctx stmts
        | .emptyS _ => pure ()
        | .assignment _ _ _ _ _ => gen_assignment_stmt fuel ctx code
        | .exprStmt ex _ => do
            let _ ← gen_expr_code fuel ctx ex
            match ex.kind with
            | .funcCall _ _ => pure ()
            | _ => throwErr (.semantic "Not a call expression" (some ex.loc))
        | .ifStmt _ _ _ _ => gen_if_stmt fuel ctx code
        | .returnStmt _ _ => gen_return_stmt fuel ctx code
        | .whileStmt _ _ _ => gen_while fuel ctx code
        | .forStmt _ _ _ _ _ => gen_for_stmt fuel ctx code)

/-- The statement list of a `Compound`. -/
def genStmtList : Nat → Ctx → List Stmt → CGM Unit
  | 0, _, _ => throwErr (.fault "recursion limit")
  | _ + 1, _, [] => CGM.pure ()
  | fuel + 1, ctx, st :: rest => do
      gen_stmt fuel ctx st
      genStmtList fuel ctx rest

/-- `gen_return_stmt` (lines 191-196): emit `Return`, then open a fresh
block as the new cursor. -/
def gen_return_stmt : Nat → Ctx → Stmt → CGM Unit
  | 0, _, _ => throwErr (.fault "recursion limit")
  | fuel + 1, ctx, code =>
      match code with
      | .returnStmt e _ => do
          let (retVal, _) ← make_rvalue_expr fuel ctx e
          emitReturn retVal
          let b ← newBlock
          setBlock b
      | _ => throwErr (.fault "gen_return_stmt: not a return")

/-- `gen_assignment_stmt` (lines 231-268): lower the l-value, check it is
a simple-typed l-value, lower and coerce the r-value, expand shorthand
operators through a load and a binop, and store (always volatile). -/
def gen_assignment_stmt : Nat → Ctx → Stmt → CGM Unit
  | 0, _, _ => throwErr (.fault "recursion limit")
  | fuel + 1, ctx, code =>
      match code with
      | .assignment lval rval isShorthand shOp loc => do
          let (lres, lval') ← gen_expr_code fuel ctx lval
          if ¬ is_simple_type lval'.typ then
            throwErr (.semantic
              ("Cannot assign to complex type " ++ typName lval'.typ) (some loc))
          else if ¬ lval'.lvalue then
            throwErr (.semantic "No valid lvalue" (some lval'.loc))
          else do
            let lv ← requireValue lres
            let (rv0, rval') ← make_rvalue_expr fuel ctx rval
            let rv1 ← do_coerce rv0 rval'.typ lval'.typ loc
            let rv2 ←
              if isShorthand then do
                let loadTy ← liftE (get_ir_type lval'.typ lval'.loc)
                let lvalLd ← emitLoad lv "assign_op_load" loadTy
                emitBinop lvalLd shOp rv1 "binop" rv1.ty
              else
                pure rv1
            emitStore rv2 lv true
      | _ => throwErr (.fault "gen_assignment_stmt: not an assignment")

/-- `gen_if_stmt` (lines 270-282): three fresh blocks, conditional
lowering, then/else each ending in a jump to the join block, cursor left
at the join block. -/
def gen_if_stmt : Nat → Ctx → Stmt → CGM Unit
  | 0, _, _ => throwErr (.fault "recursion limit")
  | fuel + 1, ctx, code =>
      match code with
      | .ifStmt condition trueStatement falseStatement _ => do
          let trueBlock ← newBlock
          let bbfalse ← newBlock
          let finalBlock ← newBlock
          let _ ← gen_cond_code fuel ctx condition trueBlock bbfalse
          setBlock trueBlock
          gen_stmt fuel ctx trueStatement
          emitJump finalBlock
          setBlock bbfalse
          gen_stmt fuel ctx falseStatement
          emitJump finalBlock
          setBlock finalBlock
      | _ => throwErr (.fault "gen_if_stmt: not an if")

/-- `gen_while` (lines 284-295). -/
def gen_while : Nat → Ctx → Stmt → CGM Unit
  | 0, _, _ => throwErr (.fault "recursion limit")
  | fuel + 1, ctx, code =>
      match code with
      | .whileStmt condition statement _ => do
          let bbdo ← newBlock
          let testBlock ← newBlock
          let finalBlock ← newBlock
          emitJump testBlock
          setBlock testBlock
          let _ ← gen_cond_code fuel ctx condition bbdo finalBlock
          setBlock bbdo
          gen_stmt fuel ctx statement
          emitJump testBlock
          setBlock finalBlock
      | _ => throwErr (.fault "gen_while: not a while")

/-- `gen_for_stmt` (lines 297-310). -/
def gen_for_stmt : Nat → Ctx → Stmt → CGM Unit
  | 0, _, _ => throwErr (.fault "recursion limit")
  | fuel + 1, ctx, code =>
      match code with
      | .forStmt init condition statement final _ => do
          let bbdo ← newBlock
          let testBlock ← newBlock
          let finalBlock ← newBlock
          gen_stmt fuel ctx init
          emitJump testBlock
          setBlock testBlock
          let _ ← gen_cond_code fuel ctx condition bbdo finalBlock
          setBlock bbdo
          gen_stmt fuel ctx statement
          gen_stmt fuel ctx final
          emitJump testBlock
          setBlock finalBlock
      | _ => throwErr (.fault "gen_for_stmt: not a for")

/-- `gen_binop` (lines 453-473): r-values of both sides, the front-end
common type, the allowed-operator check, coercion of both operands, one
`Binop`. -/
def gen_binop : Nat → Ctx → Expr → CGM (Value × Expr)
  | 0, _, _ => throwErr (.fault "recursion limit")
  | fuel + 1, ctx, e =>
      match e with
      | .mk (.binop op a b) _ _ loc => do
          let (aVal, a') ← make_rvalue_expr fuel ctx a
          let (bVal, b') ← make_rvalue_expr fuel ctx b
          let commonType := ctx.getCommonType a'.typ b'.typ
          if op == "+" || op == "-" || op == "*" || op == "/" ||
              op == "<<" || op == ">>" || op == "|" || op == "&" then do
            let aVal2 ← do_coerce aVal a'.typ commonType loc
            let bVal2 ← do_coerce bVal b'.typ commonType loc
            let r ← emitBinop aVal2 op bVal2 "binop" aVal2.ty
            pure (r, Expr.mk (.binop op a' b') commonType false loc)
          else
            throwErr (.semantic ("Cannot use " ++ op) none)
      | _ => throwErr (.fault "gen_binop: not a binop")

/-- `gen_unop` (lines 441-451): only address-of is supported. -/
def gen_unop : Nat → Ctx → Expr → CGM (Value × Expr)
  | 0, _, _ => throwErr (.fault "recursion limit")
  | fuel + 1, ctx, e =>
      match e with
      | .mk (.unop op a) _ _ loc =>
          if op == "&" then do
            let (ra, a') ← gen_expr_code fuel ctx a
            if ¬ a'.lvalue then
              throwErr (.semantic "No valid lvalue" (some a'.loc))
            else do
              let v ← requireValue ra
              pure (v, Expr.mk (.unop op a') (.pointer a'.typ) false loc)
          else
            throwErr (.fault ("Unknown unop " ++ op))
      | _ => throwErr (.fault "gen_unop: not a unop")

/-- `gen_dereference` (lines 420-439): the pointed-to type becomes the
node's type, the node is an l-value; an extra load fetches the address
when the pointer expression itself is an l-value. -/
def gen_dereference : Nat → Ctx → Expr → CGM (Value × Expr)
  | 0, _, _ => throwErr (.fault "recursion limit")
  | fuel + 1, ctx, e =>
      match e with
      | .mk (.deref p) _ _ loc => do
          let (addrRes, p') ← gen_expr_code fuel ctx p
          let ptrTyp := theType p'.typ
          match ptrTyp with
          | .pointer inner => do
              let addr ← requireValue addrRes
              if p'.lvalue then do
                let lt ← liftE (get_ir_type ptrTyp loc)
                let v ← emitLoad addr "deref" lt
                pure (v, Expr.mk (.deref p') inner true loc)
              else
                pure (addr, Expr.mk (.deref p') inner true loc)
          | _ => throwErr (.semantic "Cannot deref non-pointer" (some loc))
      | _ => throwErr (.fault "gen_dereference: not a deref")

/-- `gen_member_expr` (lines 475-519): a module sentinel resolves the
member cross-module; otherwise the base must be a structure, the node
inherits the base's l-valueness, and the field address is
`Const(offset) → IntToPtr → Add(base, offset)`. -/
def gen_member_expr : Nat → Ctx → Expr → CGM (Value × Expr)
  | 0, _, _ => throwErr (.fault "recursion limit")
  | fuel + 1, ctx, e =>
      match e with
      | .mk (.member base field) _ _ loc => do
          let (baseRes, base') ← gen_expr_code fuel ctx base
          match baseRes with
          | .moduleRef m =>
              (match ctx.resolveQualified m field with
               | none => throwErr (.semantic ("Unknown symbol " ++ field) (some loc))
               | some (.var vname vtyp) => do
                   let v ← varMapLookup vname
                   pure (v, Expr.mk (.member base' field) vtyp true loc)
               | some _ => throwErr (.fault "cross-module member is not a variable"))
          | .value baseV =>
              (match theType base'.typ with
               | .structT fields =>
                   (match ctx.checkType (.structT fields) with
                    | some (m, l) => throwErr (.semantic m l)
                    | none =>
                        match fieldType fields field with
                        | some ftyp =>
                            if base'.lvalue then do
                              let off ← emitConst
                                (.intV (ctx.fieldOffset fields field)) "offset" .i32
                              let offp ← emitIntToPtr off "offset"
                              let r ← emitAdd baseV offp "mem_addr" .ptrT
                              pure (r, Expr.mk (.member base' field) ftyp base'.lvalue loc)
                            else
                              throwErr (.fault "member base is not an lvalue")
                        | none =>
                            throwErr (.semantic
                              ("struct does not contain field " ++ field) (some loc)))
               | _ =>
                   throwErr (.semantic
                     ("Cannot select " ++ field ++ " of non-structure type")
                     (some loc)))
      | _ => throwErr (.fault "gen_member_expr: not a member")

/-- `gen_index_expr` (lines 521-551): base must be an array-typed
l-value; coerce the index to int; the element address is
`Mul(idx, element_size) → IntToPtr → Add(base, offset)`. -/
def gen_index_expr : Nat → Ctx → Expr → CGM (Value × Expr)
  | 0, _, _ => throwErr (.fault "recursion limit")
  | fuel + 1, ctx, e =>
      match e with
      | .mk (.indexE base i) _ _ loc => do
          let (baseRes, base') ← gen_expr_code fuel ctx base
          let (idx0, i') ← make_rvalue_expr fuel ctx i
          match theType base'.typ with
          | .arrayT elemT => do
              let idx ← do_coerce idx0 i'.typ (.base "int") i'.loc
              let baseV ← requireValue baseRes
              if base'.lvalue then do
                let elementSize := ctx.sizeOf (theType elemT)
                let eSize ← emitConst (.intV elementSize) "element_size" .i32
                let off ← emitMul idx eSize "element_offset" .i32
                let offp ← emitIntToPtr off "elem_offset"
                let r ← emitAdd baseV offp "element_address" .ptrT
                pure (r, Expr.mk (.indexE base' i') elemT true loc)
              else
                throwErr (.fault "index base is not an lvalue")
          | bt =>
              throwErr (.semantic
                ("Cannot index non-array type " ++ typName bt) (some base'.loc))
      | _ => throwErr (.fault "gen_index_expr: not an index")

/-- `gen_type_cast` (lines 584-610): pointer-to-pointer is the identity;
int→ptr, ptr→int, byte→int and int→byte each emit one conversion; other
casts are semantic errors. -/
def gen_type_cast : Nat → Ctx → Expr → CGM (Value × Expr)
  | 0, _, _ => throwErr (.fault "recursion limit")
  | fuel + 1, ctx, e =>
      match e with
      | .mk (.typecast toType a) _ _ loc => do
          let (ar, a') ← make_rvalue_expr fuel ctx a
          let fromType := theType a'.typ
          let toType2 := theType toType
          let e1 := fun (_ : Unit) => Expr.mk (.typecast toType a') toType false loc
          match fromType, toType2 with
          | .pointer _, .pointer _ => pure (ar, e1 ())
          | _, _ =>
              if equalTypes (.base "int") fromType &&
                  (match toType2 with | .pointer _ => true | _ => false) then do
                let v ← emitIntToPtr ar "int2ptr"
                pure (v, e1 ())
              else if equalTypes (.base "int") toType2 &&
                  (match fromType with | .pointer _ => true | _ => false) then do
                let v ← emitPtrToInt ar "ptr2int"
                pure (v, e1 ())
              else if (match fromType with | .base n => n == "byte" | _ => false) &&
                  (match toType2 with | .base n => n == "int" | _ => false) then do
                let v ← emitByteToInt ar "byte2int"
                pure (v, e1 ())
              else if (match fromType with | .base n => n == "int" | _ => false) &&
                  (match toType2 with | .base n => n == "byte" | _ => false) then do
                let v ← emitIntToByte ar "bytecast"
                pure (v, e1 ())
              else
                throwErr (.semantic
                  ("Cannot cast " ++ typName fromType ++ " to " ++ typName toType2)
                  (some loc))
      | _ => throwErr (.fault "gen_type_cast: not a cast")

/-- The argument loop of `gen_function_call`: r-value and coercion per
declared parameter type (`zip` semantics). -/
def genArgs : Nat → Ctx → List Expr → List CTyp → CGM (List Value × List Expr)
  | 0, _, _, _ => throwErr (.fault "recursion limit")
  | _ + 1, _, [], _ => CGM.pure ([], [])
  | _ + 1, _, _ :: _, [] => CGM.pure ([], [])
  | fuel + 1, ctx, a :: rest, t :: ts => do
      let (v, a') ← make_rvalue_expr fuel ctx a
      let v2 ← do_coerce v a'.typ t a'.loc
      let (vs, rest') ← genArgs fuel ctx rest ts
      pure (v2 :: vs, a' :: rest')

/-- `gen_function_call` (lines 612-648): resolve the callee (must be a
function), mangle `package_function`, check arity, lower and coerce the
arguments, require a simple return type, emit `Call`. -/
def gen_function_call : Nat → Ctx → Expr → CGM (Value × Expr)
  | 0, _, _ => throwErr (.fault "recursion limit")
  | fuel + 1, ctx, e =>
      match e with
      | .mk (.funcCall procName args) _ _ loc =>
          (match ctx.resolveSymbol procName with
           | some (.function pkg fname ptypes rtyp) => do
               let mangled := pkg ++ "_" ++ fname
               if args.length ≠ ptypes.length then
                 throwErr (.semantic
                   (mangled ++ " requires " ++ toString ptypes.length ++
                    " arguments, " ++ toString args.length ++ " given") (some loc))
               else do
                 let (argVals, args') ← genArgs fuel ctx args ptypes
                 if ¬ is_simple_type rtyp then
                   throwErr (.fault "return type is not simple")
                 else do
                   let retTy ← liftE (get_ir_type rtyp loc)
                   let r ← emitCall mangled argVals (mangled ++ "_rv") retTy
                   pure (r, Expr.mk (.funcCall procName args') rtyp false loc)
           | some _ => throwErr (.semantic "cannot call" none)
           | none => throwErr (.semantic ("Unknown symbol " ++ procName) (some loc)))
      | _ => throwErr (.fault "gen_function_call: not a call")

end

end Cgen

namespace Cgen

/-- A symbol of a function's inner scope: a parameter or a local
variable. -/
structure SymAst where
  name : String
  typ : CTyp
  isParameter : Bool

/-- A c3 function with a body (`gencode` only calls `gen_function` for
functions that have one). -/
structure FuncAst where
  name : String
  innerScope : List SymAst
  body : Stmt

/-- The inner-scope loop of `gen_function` (lines 111-131): per symbol,
validate the type, emit an `Alloc` of `size_of(typ)`; a parameter
additionally declares an `i32` IR `Parameter` on the function and a
`Store` of the parameter into the alloc (non-volatile: the source's
`ir.Store` default); the symbol maps to its alloc. -/
def genLocals (ctx : Ctx) (fi : Nat) : List SymAst → CGM Unit
  | [] => CGM.pure ()
  | sym :: rest => do
      match ctx.checkType sym.typ with
      | some (m, l) => throwErr (.semantic m l)
      | none => pure ()
      let varAlloc ← emitAlloc ("var_" ++ sym.name) (ctx.sizeOf sym.typ)
      if sym.isParameter then do
        let p ← newParameter fi sym.name .i32
        emitStore p varAlloc false
      else
        pure ()
      varMapInsert sym.name varAlloc
      genLocals ctx fi rest

/-- `gen_function` (src/ppci/c3/codegenerator.py 99-137): create the IR
function, jump from the synthetic preamble into a fresh entry block,
allocate the locals (with parameter copies), lower the body, jump to the
epilogue, set the cursor there, and clear the current function. -/
def gen_function (fuel : Nat) (ctx : Ctx) (fn : FuncAst) : CGM Unit := do
  let fi ← newFunction fn.name
  setFunction (some fi)
  let firstBlock ← newBlock
  emitJump firstBlock
  setBlock firstBlock
  genLocals ctx fi fn.innerScope
  gen_stmt fuel ctx fn.body
  let ep ← getEpilogue fi
  emitJump ep
  setBlock ep
  setFunction none

end Cgen

namespace Cgen

/-- The builder invariant: every existing block id is below the fresh-id
counter (so `newBlock` ids are fresh). -/
def blocksWF (s : CGState) : Bool :=
  s.blocks.all (fun p => p.1 < s.nextBlock)

/-- The instruction list of a block (empty when the block is unknown). -/
def blockInstrs (s : CGState) (b : Nat) : List Instr :=
  (s.blocks.lookup b).getD []

theorem bind_ok_elim {α β : Type} {m : CGM α} {f : α → CGM β} {s : CGState}
    {b : β} {s' : CGState}
    (h : CGM.bind m f s = (.ok b, s')) :
    ∃ a s1, m s = (.ok a, s1) ∧ f a s1 = (.ok b, s') := by
  unfold CGM.bind at h
  rcases hm : m s with ⟨r, s1⟩
  rw [hm] at h
  cases r with
  | ok a => exact ⟨a, s1, rfl, h⟩
  | error e => simp at h

theorem lookup_append {α β : Type} [BEq α] (k : α) (l1 l2 : List (α × β)) :
    List.lookup k (l1 ++ l2) =
      match List.lookup k l1 with
      | some v => some v
      | none => List.lookup k l2 := by
  induction l1 with
  | nil => simp [List.lookup]
  | cons p rest ih =>
      obtain ⟨a, v⟩ := p
      by_cases hk : k == a
      · simp [List.lookup, hk]
      · simp only [List.cons_append, List.lookup,
          Bool.not_eq_true] at *
        rw [Bool.eq_false_iff] at hk
        simp [hk, ih]

theorem lookup_appendToBlock (blocks : List (Nat × List Instr)) (b : Nat)
    (i : Instr) (b' : Nat) :
    List.lookup b' (appendToBlock blocks b i) =
      (List.lookup b' blocks).map (fun l => if b' = b then l ++ [i] else l) := by
  induction blocks with
  | nil => simp [appendToBlock, List.lookup]
  | cons p rest ih =>
      obtain ⟨k, v⟩ := p
      have hhead : (if (k, v).1 = b then ((k, v).1, (k, v).2 ++ [i]) else (k, v))
          = (k, if k = b then v ++ [i] else v) := by
        by_cases h : k = b <;> simp [h]
      simp only [appendToBlock] at ih ⊢
      rw [List.map_cons, hhead]
      by_cases hb' : b' = k
      · subst hb'
        by_cases hb : b' = b
        · subst hb
          simp [List.lookup]
        · simp [List.lookup, hb]
      · have hbeq : (b' == k) = false := beq_eq_false_iff_ne.mpr hb'
        simp only [List.lookup, hbeq]
        exact ih

theorem lookup_none_of_all_lt (l : List (Nat × List Instr)) (n k : Nat)
    (hwf : ∀ p ∈ l, p.1 < n) (hk : n ≤ k) : List.lookup k l = none := by
  induction l with
  | nil => simp [List.lookup]
  | cons p rest ih =>
      obtain ⟨a, v⟩ := p
      have ha : a < n := by simpa using hwf (a, v) (by simp)
      have hne : (k == a) = false := beq_eq_false_iff_ne.mpr (by omega)
      simp only [List.lookup, hne]
      exact ih (fun q hq => hwf q (by simp [hq]))

theorem lookup_none_of_wf (s : CGState) (hwf : blocksWF s = true) (k : Nat)
    (hk : s.nextBlock ≤ k) : List.lookup k s.blocks = none := by
  refine lookup_none_of_all_lt s.blocks s.nextBlock k ?_ hk
  intro p hp
  have := (List.all_eq_true.mp hwf) p hp
  simpa using this

theorem getElem?_append_length {α : Type} (l : List α) (a : α) :
    (l ++ [a])[l.length]? = some a := by
  induction l with
  | nil => rfl
  | cons x rest ih => simpa using ih

theorem not_mem_map_fst_of_wf (s : CGState) (hwf : blocksWF s = true) (k : Nat)
    (hk : s.nextBlock ≤ k) : k ∉ s.blocks.map Prod.fst := by
  unfold blocksWF at hwf
  rw [List.all_eq_true] at hwf
  intro hmem
  rw [List.mem_map] at hmem
  obtain ⟨p, hp, hfst⟩ := hmem
  have := hwf p hp
  simp at this
  omega

end Cgen

namespace Cgen

theorem equalTypes_base_inv (n : String) (t : CTyp)
    (h : equalTypes (.base n) t = true) : t = .base n := by
  cases t with
  | base m =>
      have : n = m := by simpa [equalTypes] using h
      subst this
      rfl
  | pointer p => simp [equalTypes] at h
  | arrayT e => simp [equalTypes] at h
  | structT f => simp [equalTypes] at h

/-- The four non-error cases of `do_coerce`, in source order. -/
def coercible (typ wanted : CTyp) : Bool :=
  equalTypes typ wanted ||
  (equalTypes (.base "int") typ && isPointerTyp wanted) ||
  (equalTypes (.base "int") typ && equalTypes (.base "byte") wanted) ||
  (equalTypes (.base "byte") typ && equalTypes (.base "int") wanted)

/-- C7: `do_coerce` returns the value unchanged on equal types; emits
exactly one `IntToPtr` for int→pointer, one `IntToByte` for int→byte,
one `ByteToInt` for byte→int; and raises the semantic error
`Cannot use 'T' as 'U'` exactly when none of the four conversions
applies. -/
theorem c7_coercion_rules (v : Value) (typ wanted : CTyp) (loc : Nat)
    (s : CGState) (b : Nat) (hb : s.curBlock = some b) :
    (equalTypes typ wanted = true →
      do_coerce v typ wanted loc s = (.ok v, s)) ∧
    (equalTypes typ wanted = false →
      equalTypes (.base "int") typ = true → isPointerTyp wanted = true →
      do_coerce v typ wanted loc s =
        (.ok ⟨s.nextVal, .ptrT⟩,
         { s with nextVal := s.nextVal + 1,
                  blocks := appendToBlock s.blocks b
                    (.intToPtr ⟨s.nextVal, .ptrT⟩ v "coerce") })) ∧
    (equalTypes typ wanted = false →
      equalTypes (.base "int") typ = true →
      equalTypes (.base "byte") wanted = true →
      do_coerce v typ wanted loc s =
        (.ok ⟨s.nextVal, .i8⟩,
         { s with nextVal := s.nextVal + 1,
                  blocks := appendToBlock s.blocks b
                    (.intToByte ⟨s.nextVal, .i8⟩ v "coerce") })) ∧
    (equalTypes typ wanted = false →
      equalTypes (.base "byte") typ = true →
      equalTypes (.base "int") wanted = true →
      do_coerce v typ wanted loc s =
        (.ok ⟨s.nextVal, .i32⟩,
         { s with nextVal := s.nextVal + 1,
                  blocks := appendToBlock s.blocks b
                    (.byteToInt ⟨s.nextVal, .i32⟩ v "coerce") })) ∧
    ((do_coerce v typ wanted loc s).1 =
        .error (.semantic (coerceMsg typ wanted) (some loc)) ↔
      coercible typ wanted = false) := by
  refine ⟨?_, ?_, ?_, ?_, ?_⟩
  · intro h1
    simp [do_coerce, h1, CGM.pure]
  · intro h1 h2 h3
    simp [do_coerce, h1, h2, h3, emitIntToPtr, emitValue, hb]
  · intro h1 h2 h3
    have hw : wanted = .base "byte" := equalTypes_base_inv _ _ h3
    subst hw
    simp [do_coerce, h1, h2, h3, isPointerTyp, emitIntToByte, emitValue, hb]
  · intro h1 h2 h3
    have ht : typ = .base "byte" := equalTypes_base_inv _ _ h2
    have hw : wanted = .base "int" := equalTypes_base_inv _ _ h3
    subst ht; subst hw
    simp [do_coerce, h1, equalTypes, emitByteToInt, emitValue, hb]
  · by_cases h1 : equalTypes typ wanted
    · simp [do_coerce, h1, coercible, CGM.pure]
    · by_cases h2 : equalTypes (.base "int") typ && isPointerTyp wanted
      · simp [do_coerce, h1, h2, coercible, emitIntToPtr, emitValue, hb]
      · by_cases h3 : equalTypes (.base "int") typ && equalTypes (.base "byte") wanted
        · simp [do_coerce, h1, h2, h3, coercible, emitIntToByte, emitValue, hb]
        · by_cases h4 : equalTypes (.base "byte") typ && equalTypes (.base "int") wanted
          · simp [do_coerce, h1, h2, h3, h4, coercible, emitByteToInt, emitValue, hb]
          · simp [do_coerce, h1, h2, h3, h4, coercible, throwErr]

/-- A one-block starting state for concrete runs: block 0 exists and is
current, counters at 1/0. -/
def s0 : CGState := ⟨[(0, [])], some 0, 1, 0, [], none, [], [], true, none⟩

/-- Witness for C7 at `int` → `byte*`: one `IntToPtr` is emitted. -/
theorem c7_coercion_rules_witness :
    s0.curBlock = some 0 ∧
    (equalTypes (.base "int") (.pointer (.base "byte")) = true →
      do_coerce ⟨9, .i32⟩ (.base "int") (.pointer (.base "byte")) 3 s0 =
        (.ok ⟨9, .i32⟩, s0)) ∧
    (equalTypes (.base "int") (.pointer (.base "byte")) = false →
      equalTypes (.base "int") (.base "int") = true →
      isPointerTyp (.pointer (.base "byte")) = true →
      do_coerce ⟨9, .i32⟩ (.base "int") (.pointer (.base "byte")) 3 s0 =
        (.ok ⟨s0.nextVal, .ptrT⟩,
         { s0 with nextVal := s0.nextVal + 1,
                   blocks := appendToBlock s0.blocks 0
                     (.intToPtr ⟨s0.nextVal, .ptrT⟩ ⟨9, .i32⟩ "coerce") })) ∧
    (equalTypes (.base "int") (.pointer (.base "byte")) = false →
      equalTypes (.base "int") (.base "int") = true →
      equalTypes (.base "byte") (.pointer (.base "byte")) = true →
      do_coerce ⟨9, .i32⟩ (.base "int") (.pointer (.base "byte")) 3 s0 =
        (.ok ⟨s0.nextVal, .i8⟩,
         { s0 with nextVal := s0.nextVal + 1,
                   blocks := appendToBlock s0.blocks 0
                     (.intToByte ⟨s0.nextVal, .i8⟩ ⟨9, .i32⟩ "coerce") })) ∧
    (equalTypes (.base "int") (.pointer (.base "byte")) = false →
      equalTypes (.base "byte") (.base "int") = true →
      equalTypes (.base "int") (.pointer (.base "byte")) = true →
      do_coerce ⟨9, .i32⟩ (.base "int") (.pointer (.base "byte")) 3 s0 =
        (.ok ⟨s0.nextVal, .i32⟩,
         { s0 with nextVal := s0.nextVal + 1,
                   blocks := appendToBlock s0.blocks 0
                     (.byteToInt ⟨s0.nextVal, .i32⟩ ⟨9, .i32⟩ "coerce") })) ∧
    ((do_coerce ⟨9, .i32⟩ (.base "int") (.pointer (.base "byte")) 3 s0).1 =
        .error (.semantic (coerceMsg (.base "int") (.pointer (.base "byte"))) (some 3)) ↔
      coercible (.base "int") (.pointer (.base "byte")) = false) :=
  ⟨rfl, (c7_coercion_rules ⟨9, .i32⟩ (.base "int") (.pointer (.base "byte")) 3 s0 0 rfl).1,
   (c7_coercion_rules ⟨9, .i32⟩ (.base "int") (.pointer (.base "byte")) 3 s0 0 rfl).2.1,
   (c7_coercion_rules ⟨9, .i32⟩ (.base "int") (.pointer (.base "byte")) 3 s0 0 rfl).2.2.1,
   (c7_coercion_rules ⟨9, .i32⟩ (.base "int") (.pointer (.base "byte")) 3 s0 0 rfl).2.2.2.1,
   (c7_coercion_rules ⟨9, .i32⟩ (.base "int") (.pointer (.base "byte")) 3 s0 0 rfl).2.2.2.2⟩

end Cgen

namespace Cgen

/-- C4: lowering a string literal emits a `Const` whose payload is the
4-byte little-endian length of the string followed by its ASCII code
points, then an `Addr` of that constant, which becomes the expression's
value (of type `string`, not an l-value).  The little-endian digit and
ASCII facts are stated explicitly, and the `"Hi"` image is checked
byte-for-byte.  (The ASCII hypothesis marks where the source's
`encode('ascii')` would raise instead.) -/
theorem c4_string_literal (str : String) (t0 : CTyp) (l0 : Bool) (loc : Nat)
    (st : CGState) (b : Nat) (hb : st.curBlock = some b)
    (hascii : ∀ c ∈ str.data, c.toNat < 128)
    (hlen : str.length < 2 ^ 32) :
    gen_literal_expr (.mk (.literal (.strL str)) t0 l0 loc) st =
      (.ok (⟨st.nextVal + 1, .i32⟩,
            .mk (.literal (.strL str)) (.base "string") false loc),
       { st with
           nextVal := st.nextVal + 2,
           blocks := appendToBlock
             (appendToBlock st.blocks b
               (.constI ⟨st.nextVal, .i32⟩ (.blob (pack_string str)) "strval"))
             b (.addr ⟨st.nextVal + 1, .i32⟩ ⟨st.nextVal, .i32⟩ "addroftxt") }) ∧
    (pack_string str).take 4 =
      [str.length % 256, str.length / 256 % 256,
       str.length / 65536 % 256, str.length / 16777216 % 256] ∧
    (pack_string str).drop 4 = str.data.map Char.toNat ∧
    pack_string "Hi" = [2, 0, 0, 0, 72, 105] := by
  refine ⟨?_, ?_, ?_, by decide⟩
  · simp [gen_literal_expr, emitConst, emitAddr, emitValue, hb, CGM.bind, CGM.pure,
      literalTyp]
  · simp [pack_string, CCtx.natLEBytes]
    omega
  · simp [pack_string, CCtx.natLEBytes]

/-- Witness for C4 at `"Hi"` on the one-block state. -/
theorem c4_string_literal_witness :
    (s0.curBlock = some 0 ∧ (∀ c ∈ "Hi".data, c.toNat < 128) ∧
      "Hi".length < 2 ^ 32) ∧
    (gen_literal_expr (.mk (.literal (.strL "Hi")) (.base "void") false 4) s0 =
      (.ok (⟨s0.nextVal + 1, .i32⟩,
            .mk (.literal (.strL "Hi")) (.base "string") false 4),
       { s0 with
           nextVal := s0.nextVal + 2,
           blocks := appendToBlock
             (appendToBlock s0.blocks 0
               (.constI ⟨s0.nextVal, .i32⟩ (.blob (pack_string "Hi")) "strval"))
             0 (.addr ⟨s0.nextVal + 1, .i32⟩ ⟨s0.nextVal, .i32⟩ "addroftxt") }) ∧
    (pack_string "Hi").take 4 =
      ["Hi".length % 256, "Hi".length / 256 % 256,
       "Hi".length / 65536 % 256, "Hi".length / 16777216 % 256] ∧
    (pack_string "Hi").drop 4 = "Hi".data.map Char.toNat ∧
    pack_string "Hi" = [2, 0, 0, 0, 72, 105]) :=
  ⟨⟨rfl, by decide, by decide⟩,
   c4_string_literal "Hi" (.base "void") false 4 s0 0 rfl (by decide) (by decide)⟩

end Cgen

namespace Cgen

theorem pure_ok_elim {α : Type} {a : α} {s : CGState} {b : α} {s' : CGState}
    (h : CGM.pure a s = (.ok b, s')) : a = b ∧ s = s' := by
  unfold CGM.pure at h
  have h1 := congrArg Prod.fst h
  have h2 := congrArg Prod.snd h
  simp at h1 h2
  exact ⟨h1, h2⟩

/-- A successful `gen_literal_expr` returns the node re-annotated with the
literal's scope type, `lvalue = False`, same location. -/
theorem gen_literal_expr_node {val : LitVal} {t0 : CTyp} {l0 : Bool}
    {loc : Nat} {s : CGState} {v : Value} {e1 : Expr} {s' : CGState}
    (h : gen_literal_expr (.mk (.literal val) t0 l0 loc) s = (.ok (v, e1), s')) :
    e1 = .mk (.literal val) (literalTyp val) false loc := by
  cases val with
  | strL str =>
      simp only [gen_literal_expr] at h
      obtain ⟨c, s1, h1, h2⟩ := bind_ok_elim h
      obtain ⟨a2, s2, h3, h4⟩ := bind_ok_elim h2
      have := (pure_ok_elim h4).1
      simpa using (congrArg Prod.snd this).symm
  | intL n =>
      simp only [gen_literal_expr] at h
      obtain ⟨c, s1, h1, h2⟩ := bind_ok_elim h
      have := (pure_ok_elim h2).1
      simpa using (congrArg Prod.snd this).symm
  | boolL bv =>
      simp only [gen_literal_expr] at h
      obtain ⟨c, s1, h1, h2⟩ := bind_ok_elim h
      have := (pure_ok_elim h2).1
      simpa using (congrArg Prod.snd this).symm
  | floatL n =>
      simp only [gen_literal_expr] at h
      obtain ⟨c, s1, h1, h2⟩ := bind_ok_elim h
      have := (pure_ok_elim h2).1
      simpa using (congrArg Prod.snd this).symm

/-- Running the dispatch followed by the boolean verification, when the
dispatched type is boolean: the verification changes nothing. -/
theorem gen_cond_code_of_dispatch {fuel : Nat} {ctx : Ctx} {e : Expr}
    {tb fb : Nat} {s : CGState} {e' : Expr} {s1 : CGState}
    (hdisp : genCondDispatch fuel ctx e tb fb s = (.ok e', s1))
    (htyp : equalTypes e'.typ (.base "bool") = true) :
    gen_cond_code (fuel + 1) ctx e tb fb s = (.ok e', s1) := by
  simp only [gen_cond_code, CGM.monad_bind_eq, CGM.bind_apply, hdisp, htyp,
    if_true, CGM.monad_pure_eq, CGM.pure_apply]

/-- Running the dispatch followed by the boolean verification, when the
dispatched type is not boolean: the error is recorded. -/
theorem gen_cond_code_of_dispatch_bad {fuel : Nat} {ctx : Ctx} {e : Expr}
    {tb fb : Nat} {s : CGState} {e' : Expr} {s1 : CGState}
    (hdisp : genCondDispatch fuel ctx e tb fb s = (.ok e', s1))
    (htyp : equalTypes e'.typ (.base "bool") = false) :
    gen_cond_code (fuel + 1) ctx e tb fb s =
      (.ok e', recordErrorS "Condition must be boolean" (some e'.loc) s1) := by
  simp only [gen_cond_code, CGM.monad_bind_eq, CGM.bind_apply, hdisp, htyp,
    Bool.false_eq_true, if_false, CGM.monad_pure_eq, CGM.pure_apply,
    recordError, modifyState]

end Cgen

namespace Cgen

/-- Every successful dispatch of a `Binop` condition produces a node whose
type has been set to `bool` (the or/and/relational branches all do; any
other operator raises). -/
theorem dispatch_binop_typ {f : Nat} {ctx : Ctx} {op : String} {a b : Expr}
    {t0 : CTyp} {l0 : Bool} {loc tb fb : Nat} {s : CGState} {e' : Expr}
    {s1 : CGState}
    (hdisp : genCondDispatch (f + 1) ctx (.mk (.binop op a b) t0 l0 loc) tb fb s =
      (.ok e', s1)) :
    e'.typ = .base "bool" := by
  by_cases h1 : (op == "or") = true
  · simp only [genCondDispatch, h1, if_true, CGM.monad_bind_eq,
      CGM.monad_pure_eq] at hdisp
    obtain ⟨second, sA, hA, h⟩ := bind_ok_elim hdisp
    obtain ⟨a', sB, hB, h⟩ := bind_ok_elim h
    obtain ⟨u, sC, hC, h⟩ := bind_ok_elim h
    obtain ⟨b', sD, hD, h⟩ := bind_ok_elim h
    have := (pure_ok_elim h).1
    rw [← this]
    rfl
  · by_cases h2 : (op == "and") = true
    · simp only [genCondDispatch, h1, h2, Bool.false_eq_true, if_false,
        if_true, CGM.monad_bind_eq, CGM.monad_pure_eq] at hdisp
      obtain ⟨second, sA, hA, h⟩ := bind_ok_elim hdisp
      obtain ⟨a', sB, hB, h⟩ := bind_ok_elim h
      obtain ⟨u, sC, hC, h⟩ := bind_ok_elim h
      obtain ⟨b', sD, hD, h⟩ := bind_ok_elim h
      have := (pure_ok_elim h).1
      rw [← this]
      rfl
    · by_cases h3 : (op == "==" || op == ">" || op == "<" ||
          op == "!=" || op == "<=" || op == ">=") = true
      · simp only [genCondDispatch, h1, h2, h3, Bool.false_eq_true, if_false,
          if_true, CGM.monad_bind_eq, CGM.monad_pure_eq] at hdisp
        obtain ⟨x, sA, hA, h⟩ := bind_ok_elim hdisp
        obtain ⟨ta, a'⟩ := x
        obtain ⟨y, sB, hB, h⟩ := bind_ok_elim h
        obtain ⟨tbv, b'⟩ := y
        by_cases heq : equalTypes a'.typ b'.typ = true
        · simp only [heq, if_true] at h
          obtain ⟨u, sC, hC, h⟩ := bind_ok_elim h
          have := (pure_ok_elim h).1
          rw [← this]
          rfl
        · simp only [heq, Bool.false_eq_true, if_false, throwErr] at h
          cases h
      · simp only [genCondDispatch, h1, h2, h3, Bool.false_eq_true, if_false,
          throwErr] at hdisp
        cases hdisp

/-- C2 (amended): for an `and`/`or`/relational `Binop` condition the
dispatch sets the node's type to `bool`, so the subsequent verification
passes and adds nothing.  For a `Literal` condition the node keeps the
literal's own scope type, so the verification passes exactly for boolean
literals and reports `Condition must be boolean` for every other literal
(the jump to the chosen block has already been emitted by then). -/
theorem c2_condition_verification (fuel : Nat) (ctx : Ctx) (tb fb : Nat)
    (s : CGState) :
    (∀ op a b t0 l0 loc e' s1,
      (op = "or" ∨ op = "and" ∨ op = "==" ∨ op = ">" ∨ op = "<" ∨
       op = "!=" ∨ op = "<=" ∨ op = ">=") →
      genCondDispatch fuel ctx (.mk (.binop op a b) t0 l0 loc) tb fb s =
        (.ok e', s1) →
      e'.typ = .base "bool" ∧
      gen_cond_code (fuel + 1) ctx (.mk (.binop op a b) t0 l0 loc) tb fb s =
        (.ok e', s1)) ∧
    (∀ val t0 l0 loc e' s1,
      genCondDispatch fuel ctx (.mk (.literal val) t0 l0 loc) tb fb s =
        (.ok e', s1) →
      e'.typ = literalTyp val ∧
      gen_cond_code (fuel + 1) ctx (.mk (.literal val) t0 l0 loc) tb fb s =
        (match val with
         | .boolL _ => (.ok e', s1)
         | _ => (.ok e', recordErrorS "Condition must be boolean" (some e'.loc) s1))) := by
  constructor
  · intro op a b t0 l0 loc e' s1 _hop hdisp
    cases fuel with
    | zero => simp [genCondDispatch, throwErr] at hdisp
    | succ f =>
        have htyp : e'.typ = .base "bool" := dispatch_binop_typ hdisp
        refine ⟨htyp, ?_⟩
        refine gen_cond_code_of_dispatch hdisp ?_
        rw [htyp]
        rfl
  · intro val t0 l0 loc e' s1 hdisp
    cases fuel with
    | zero => simp [genCondDispatch, throwErr] at hdisp
    | succ f =>
        have hnode : e' = .mk (.literal val) (literalTyp val) false loc := by
          simp only [genCondDispatch, CGM.monad_bind_eq,
            CGM.monad_pure_eq] at hdisp
          obtain ⟨x, sA, hA, h⟩ := bind_ok_elim hdisp
          obtain ⟨r, e1⟩ := x
          have hpure : ∃ sB, CGM.pure (r, e1).2 sB = (.ok e', s1) := by
            by_cases htr : val.truthy = true
            · simp only [htr, if_true] at h
              obtain ⟨u, sB, hB, hh⟩ := bind_ok_elim h
              exact ⟨sB, hh⟩
            · simp only [htr, Bool.false_eq_true, if_false] at h
              obtain ⟨u, sB, hB, hh⟩ := bind_ok_elim h
              exact ⟨sB, hh⟩
          obtain ⟨sB, hB2⟩ := hpure
          have he1 : e1 = e' := by simpa using (pure_ok_elim hB2).1
          cases f with
          | zero => simp [gen_expr_code, throwErr] at hA
          | succ f2 =>
              simp only [gen_expr_code, CGM.monad_bind_eq,
                CGM.monad_pure_eq] at hA
              obtain ⟨y, sC, hC, hD⟩ := bind_ok_elim hA
              obtain ⟨v2, e2⟩ := y
              have h2 := (pure_ok_elim hD).1
              have he2 : e2 = .mk (.literal val) (literalTyp val) false loc :=
                gen_literal_expr_node hC
              have hsnd := congrArg Prod.snd h2
              simp at hsnd
              rw [← he1, ← hsnd, he2]
        have htyp : e'.typ = literalTyp val := by rw [hnode]; rfl
        refine ⟨htyp, ?_⟩
        cases val with
        | boolL bv =>
            exact gen_cond_code_of_dispatch hdisp (by rw [htyp]; rfl)
        | intL n =>
            exact gen_cond_code_of_dispatch_bad hdisp (by rw [htyp]; rfl)
        | floatL n =>
            exact gen_cond_code_of_dispatch_bad hdisp (by rw [htyp]; rfl)
        | strL str =>
            exact gen_cond_code_of_dispatch_bad hdisp (by rw [htyp]; rfl)

/-- A trivial front-end context for concrete runs: no symbols, no types. -/
def ctx0 : Ctx := ⟨fun _ => none, fun _ _ => none, fun _ => 0, fun _ => none,
  fun _ => 0, fun a _ => a, fun _ _ => 0⟩

/-- C2 counterexample: the truthy integer literal `1` as a condition
lowers to `Const 1` followed by `Jump` to the true block (5), but its type
stays `int` — the set-to-bool happens only in the `Binop` branch — so the
`Condition must be boolean` error IS reported, refuting the claim's
"without the error being reported". -/
theorem c2_literal_condition_counterexample :
    gen_cond_code 3 ctx0 (.mk (.literal (.intL 1)) (.base "void") false 7) 5 6 s0 =
      (.ok (.mk (.literal (.intL 1)) (.base "int") false 7),
       ⟨[(0, [.constI ⟨0, .i32⟩ (.intV 1) "cnst", .jump 5])], some 0, 1, 1, [],
        none, [], [("Condition must be boolean", some 7)], false, none⟩) ∧
    (gen_cond_code 3 ctx0 (.mk (.literal (.intL 1)) (.base "void") false 7)
        5 6 s0).2.errors = [("Condition must be boolean", some 7)] ∧
    Instr.jump 5 ∈ blockInstrs
      (gen_cond_code 3 ctx0 (.mk (.literal (.intL 1)) (.base "void") false 7)
        5 6 s0).2 0 := by
  refine ⟨rfl, rfl, ?_⟩
  rw [show blockInstrs
      (gen_cond_code 3 ctx0 (.mk (.literal (.intL 1)) (.base "void") false 7)
        5 6 s0).2 0 =
      [.constI ⟨0, .i32⟩ (.intV 1) "cnst", .jump 5] from rfl]
  simp

/-- Witness for the amended C2 at the boolean literal `true`: dispatch
succeeds, the type is `bool`, the verification adds nothing. -/
theorem c2_condition_verification_witness :
    (∃ e' s1,
      genCondDispatch 2 ctx0 (.mk (.literal (.boolL true)) (.base "void") false 3)
        5 6 s0 = (.ok e', s1) ∧
      (e'.typ = literalTyp (.boolL true) ∧
       gen_cond_code 3 ctx0 (.mk (.literal (.boolL true)) (.base "void") false 3)
          5 6 s0 =
        (match LitVal.boolL true with
         | .boolL _ => (.ok e', s1)
         | _ => (.ok e', recordErrorS "Condition must be boolean" (some e'.loc) s1)))) :=
  ⟨.mk (.literal (.boolL true)) (.base "bool") false 3,
   ⟨[(0, [.constI ⟨0, .i32⟩ (.intV 1) "bool_cnst", .jump 5])], some 0, 1, 1, [],
    none, [], [], true, none⟩,
   rfl,
   (c2_condition_verification 2 ctx0 5 6 s0).2 (.boolL true) (.base "void")
     false 3 _ _ rfl⟩

end Cgen

namespace Cgen

/-- C6: for `Binop('and')` the dispatch allocates exactly one new block
`M` (`second`), recursively lowers `a` with targets `(M, false_block)`,
moves the cursor to `M`, then lowers `b` with targets
`(true_block, false_block)`; symmetrically, `or` lowers `a` with targets
`(true_block, M)`.  Both equal exactly this composition — no instruction
and no IR value is produced outside the recursive calls, so no boolean
result is ever materialized.  Under the builder invariant the allocated
block is fresh. -/
theorem c6_short_circuit_lowering (fuel : Nat) (ctx : Ctx) (a b : Expr)
    (t0 : CTyp) (l0 : Bool) (loc : Nat) (tb fb : Nat) :
    (∀ s, genCondDispatch (fuel + 1) ctx (.mk (.binop "and" a b) t0 l0 loc) tb fb s =
      (do
        let second ← newBlock
        let a' ← gen_cond_code fuel ctx a second fb
        setBlock second
        let b' ← gen_cond_code fuel ctx b tb fb
        pure (Expr.mk (.binop "and" a' b') (.base "bool") l0 loc)) s) ∧
    (∀ s, genCondDispatch (fuel + 1) ctx (.mk (.binop "or" a b) t0 l0 loc) tb fb s =
      (do
        let second ← newBlock
        let a' ← gen_cond_code fuel ctx a tb second
        setBlock second
        let b' ← gen_cond_code fuel ctx b tb fb
        pure (Expr.mk (.binop "or" a' b') (.base "bool") l0 loc)) s) ∧
    (∀ s, newBlock s = (.ok s.nextBlock,
       { s with blocks := s.blocks ++ [(s.nextBlock, [])],
                nextBlock := s.nextBlock + 1 })) ∧
    (∀ s, blocksWF s = true → s.nextBlock ∉ s.blocks.map Prod.fst) := by
  refine ⟨fun s => rfl, fun s => rfl, fun s => rfl, fun s hwf => ?_⟩
  exact not_mem_map_fst_of_wf s hwf s.nextBlock (le_refl _)

/-- Witness for C6 on the one-block state: the allocated block 1 is
fresh. -/
theorem c6_short_circuit_lowering_witness :
    blocksWF s0 = true ∧ s0.nextBlock ∉ s0.blocks.map Prod.fst :=
  ⟨by decide,
   (c6_short_circuit_lowering 0 ctx0 (.mk (.literal (.boolL true)) (.base "void") false 0)
      (.mk (.literal (.boolL true)) (.base "void") false 0) (.base "void") false 0 5 6).2.2.2
     s0 (by decide)⟩

/-- C5: `gen_if_stmt` is exactly: allocate `true_block`, `false_block`,
`final_block` (three fresh blocks), lower the condition with targets
`(true_block, false_block)`, lower the then-statement starting in
`true_block` followed by a `Jump` to `final_block`, lower the
else-statement starting in `false_block` followed by a `Jump` to
`final_block`; on success the cursor ends at `final_block`. -/
theorem c5_if_lowering (fuel : Nat) (ctx : Ctx) (condition : Expr)
    (thenS elseS : Stmt) (loc : Nat) :
    (∀ s, gen_if_stmt (fuel + 1) ctx (.ifStmt condition thenS elseS loc) s =
      (do
        let trueBlock ← newBlock
        let bbfalse ← newBlock
        let finalBlock ← newBlock
        let _ ← gen_cond_code fuel ctx condition trueBlock bbfalse
        setBlock trueBlock
        gen_stmt fuel ctx thenS
        emitJump finalBlock
        setBlock bbfalse
        gen_stmt fuel ctx elseS
        emitJump finalBlock
        setBlock finalBlock) s) ∧
    (∀ s, blocksWF s = true →
      s.nextBlock ∉ s.blocks.map Prod.fst ∧
      s.nextBlock + 1 ∉ s.blocks.map Prod.fst ∧
      s.nextBlock + 2 ∉ s.blocks.map Prod.fst) ∧
    (∀ s u s', gen_if_stmt (fuel + 1) ctx (.ifStmt condition thenS elseS loc) s =
        (.ok u, s') →
      s'.curBlock = some (s.nextBlock + 2)) := by
  refine ⟨fun s => rfl, ?_, ?_⟩
  · intro s hwf
    exact ⟨not_mem_map_fst_of_wf s hwf _ (le_refl _),
           not_mem_map_fst_of_wf s hwf _ (by omega),
           not_mem_map_fst_of_wf s hwf _ (by omega)⟩
  · intro s u s' hrun
    simp only [gen_if_stmt, CGM.monad_bind_eq, CGM.monad_pure_eq] at hrun
    obtain ⟨tbv, sA, hA, h⟩ := bind_ok_elim hrun
    obtain ⟨fbv, sB, hB, h⟩ := bind_ok_elim h
    obtain ⟨jbv, sC, hC, h⟩ := bind_ok_elim h
    obtain ⟨ce, sD, hD, h⟩ := bind_ok_elim h
    obtain ⟨u1, sE, hE, h⟩ := bind_ok_elim h
    obtain ⟨u2, sF, hF, h⟩ := bind_ok_elim h
    obtain ⟨u3, sG, hG, h⟩ := bind_ok_elim h
    obtain ⟨u4, sH, hH, h⟩ := bind_ok_elim h
    obtain ⟨u5, sI, hI, h⟩ := bind_ok_elim h
    obtain ⟨u6, sJ, hJ, h⟩ := bind_ok_elim h
    have hs' : s' = { sJ with curBlock := some jbv } := by
      have h2 := congrArg Prod.snd h
      simpa [setBlock, modifyState] using h2.symm
    have hA1 : tbv = s.nextBlock ∧
        sA = { s with blocks := s.blocks ++ [(s.nextBlock, [])],
                      nextBlock := s.nextBlock + 1 } := by
      have e1 := congrArg Prod.fst hA
      have e2 := congrArg Prod.snd hA
      simp [newBlock] at e1 e2
      exact ⟨e1.symm, e2.symm⟩
    have hB1 : fbv = sA.nextBlock ∧
        sB = { sA with blocks := sA.blocks ++ [(sA.nextBlock, [])],
                       nextBlock := sA.nextBlock + 1 } := by
      have e1 := congrArg Prod.fst hB
      have e2 := congrArg Prod.snd hB
      simp [newBlock] at e1 e2
      exact ⟨e1.symm, e2.symm⟩
    have hC1 : jbv = sB.nextBlock := by
      have e1 := congrArg Prod.fst hC
      simp [newBlock] at e1
      exact e1.symm
    have hjb : jbv = s.nextBlock + 2 := by
      rw [hC1, hB1.2, hA1.2]
    rw [hs', hjb]

/-- Witness for C5 on the one-block state. -/
theorem c5_if_lowering_witness :
    blocksWF s0 = true ∧
    (s0.nextBlock ∉ s0.blocks.map Prod.fst ∧
     s0.nextBlock + 1 ∉ s0.blocks.map Prod.fst ∧
     s0.nextBlock + 2 ∉ s0.blocks.map Prod.fst) :=
  ⟨by decide,
   (c5_if_lowering 0 ctx0 (.mk (.literal (.boolL true)) (.base "void") false 0)
      (.emptyS 0) (.emptyS 0) 0).2.1 s0 (by decide)⟩

end Cgen

namespace Cgen

/-- What the locals loop of `gen_function` does: the cursor and the block
table outside the current block are untouched, the current block only
grows, the functions keep their identity (name, preamble, epilogue), and
the current function gains one `i32` parameter per parameter symbol, each
stored into its own fresh alloc in the current block. -/
theorem genLocals_spec (ctx : Ctx) (fi : Nat) (syms : List SymAst) :
    ∀ s s' b, s.curBlock = some b →
    (List.lookup b s.blocks).isSome = true →
    fi < s.funcs.length →
    genLocals ctx fi syms s = (.ok (), s') →
    s'.curBlock = some b ∧
    (List.lookup b s'.blocks).isSome = true ∧
    s'.funcs.length = s.funcs.length ∧
    (∀ j : Nat, ((s'.funcs[j]?).map (fun (f : FuncInfo) => (f.name, f.preamble, f.epilogue))) =
          ((s.funcs[j]?).map (fun (f : FuncInfo) => (f.name, f.preamble, f.epilogue)))) ∧
    (∀ bid, bid ≠ b → List.lookup bid s'.blocks = List.lookup bid s.blocks) ∧
    (∃ added, blockInstrs s' b = blockInstrs s b ++ added) ∧
    (∃ ps, (s'.funcs[fi]?).map FuncInfo.params =
             (s.funcs[fi]?).map (fun (f : FuncInfo) => f.params ++ ps) ∧
      ps.map Prod.fst = (syms.filter (fun sym => sym.isParameter)).map SymAst.name ∧
      (∀ q ∈ ps, q.2.ty = .i32 ∧
        ∃ al sz, Instr.alloc al ("var_" ++ q.1) sz ∈ blockInstrs s' b ∧
                 Instr.store q.2 al false ∈ blockInstrs s' b)) := by
  induction syms with
  | nil =>
      intro s s' b hb hbp hfi hrun
      have hss : s = s' := by simpa [genLocals, CGM.pure] using hrun
      subst hss
      refine ⟨hb, hbp, rfl, fun j => rfl, fun bid _ => rfl, ⟨[], by simp⟩, ?_⟩
      exact ⟨[], by simp, by simp, by simp⟩
  | cons sym rest ih =>
      intro s s' b hb hbp hfi hrun
      cases hct : ctx.checkType sym.typ with
      | some ml =>
          exfalso
          simp only [genLocals, hct, CGM.monad_bind_eq, CGM.bind_apply,
            throwErr] at hrun
          cases hrun
      | none =>
          have hfn : s.funcs[fi]? = some (s.funcs.get ⟨fi, hfi⟩) := by
            rw [List.getElem?_eq_getElem hfi]
            rfl
          by_cases hpar : sym.isParameter = true
          · -- parameter symbol: alloc, i32 parameter, store, map, recurse
            have hstep : genLocals ctx fi (sym :: rest) s = genLocals ctx fi rest
                { s with
                    nextVal := s.nextVal + 1 + 1,
                    blocks := appendToBlock (appendToBlock s.blocks b
                        (.alloc ⟨s.nextVal, .ptrT⟩ ("var_" ++ sym.name)
                          (ctx.sizeOf sym.typ))) b
                        (.store ⟨s.nextVal + 1, .i32⟩ ⟨s.nextVal, .ptrT⟩ false),
                    funcs := s.funcs.set fi
                      { s.funcs.get ⟨fi, hfi⟩ with
                          params := (s.funcs.get ⟨fi, hfi⟩).params ++
                            [(sym.name, ⟨s.nextVal + 1, .i32⟩)] },
                    varMap := (sym.name, ⟨s.nextVal, .ptrT⟩) :: s.varMap } := by
              simp [genLocals, hct, hb, hpar, hfn, emitAlloc, emitValue,
                newParameter, emitStore, emitEffect, varMapInsert, modifyState,
                CGM.bind, CGM.pure]
            rw [hstep] at hrun
            set iAlloc : Instr :=
              .alloc ⟨s.nextVal, .ptrT⟩ ("var_" ++ sym.name) (ctx.sizeOf sym.typ)
              with hiAlloc
            set iStore : Instr := .store ⟨s.nextVal + 1, .i32⟩ ⟨s.nextVal, .ptrT⟩ false
              with hiStore
            set s4 : CGState :=
              { s with
                  nextVal := s.nextVal + 1 + 1,
                  blocks := appendToBlock (appendToBlock s.blocks b iAlloc) b iStore,
                  funcs := s.funcs.set fi
                    { s.funcs.get ⟨fi, hfi⟩ with
                        params := (s.funcs.get ⟨fi, hfi⟩).params ++
                          [(sym.name, ⟨s.nextVal + 1, .i32⟩)] },
                  varMap := (sym.name, ⟨s.nextVal, .ptrT⟩) :: s.varMap } with hs4
            have hb4 : s4.curBlock = some b := hb
            have hlkb4 : List.lookup b s4.blocks =
                (List.lookup b s.blocks).map (fun l => l ++ [iAlloc] ++ [iStore]) := by
              rw [hs4]
              simp only [lookup_appendToBlock, if_pos rfl, Option.map_map]
              cases List.lookup b s.blocks <;> simp
            have hbp4 : (List.lookup b s4.blocks).isSome = true := by
              rw [hlkb4]
              cases hx : List.lookup b s.blocks with
              | none => rw [hx] at hbp; simp at hbp
              | some l => simp
            have hfi4 : fi < s4.funcs.length := by
              rw [hs4]; simpa using hfi
            obtain ⟨ihc, ihbp, ihlen, ihmeta, ihlk, ⟨added, ihbi⟩, ps', ihps, ihnames, ihmem⟩ :=
              ih s4 s' b hb4 hbp4 hfi4 hrun
            have hbi4 : blockInstrs s4 b = blockInstrs s b ++ [iAlloc, iStore] := by
              simp only [blockInstrs, hlkb4]
              cases hx : List.lookup b s.blocks with
              | none => rw [hx] at hbp; simp at hbp
              | some l => simp
            refine ⟨ihc, ihbp, ?_, ?_, ?_, ?_, ?_⟩
            · rw [ihlen, hs4]; simp
            · intro j
              rw [ihmeta j, hs4]
              simp only
              by_cases hj : j = fi
              · subst hj
                rw [List.getElem?_set_eq_of_lt _ (by simpa using hfi), hfn]
                simp
              · rw [List.getElem?_set_ne (fun h => hj h.symm)]
            · intro bid hbid
              rw [ihlk bid hbid, hs4]
              simp only [lookup_appendToBlock]
              cases hx : List.lookup bid s.blocks with
              | none => simp
              | some l => simp [hbid]
            · exact ⟨[iAlloc, iStore] ++ added, by rw [ihbi, hbi4, List.append_assoc]⟩
            · refine ⟨(sym.name, ⟨s.nextVal + 1, .i32⟩) :: ps', ?_, ?_, ?_⟩
              · rw [ihps, hs4]
                simp only
                rw [List.getElem?_set_eq_of_lt _ (by simpa using hfi), hfn]
                simp
              · simp only [List.map_cons, ihnames, List.filter_cons, hpar]
                simp
              · intro q hq
                rcases List.mem_cons.mp hq with hq1 | hq2
                · subst hq1
                  refine ⟨rfl, ⟨s.nextVal, .ptrT⟩, ctx.sizeOf sym.typ, ?_, ?_⟩
                  · rw [ihbi, hbi4]
                    simp [hiAlloc]
                  · rw [ihbi, hbi4]
                    simp [hiStore]
                · exact ihmem q hq2
          · -- plain local variable: alloc, map, recurse
            rw [Bool.not_eq_true] at hpar
            have hstep : genLocals ctx fi (sym :: rest) s = genLocals ctx fi rest
                { s with
                    nextVal := s.nextVal + 1,
                    blocks := appendToBlock s.blocks b
                      (.alloc ⟨s.nextVal, .ptrT⟩ ("var_" ++ sym.name)
                        (ctx.sizeOf sym.typ)),
                    varMap := (sym.name, ⟨s.nextVal, .ptrT⟩) :: s.varMap } := by
              simp [genLocals, hct, hb, hpar, emitAlloc, emitValue,
                varMapInsert, modifyState, CGM.bind, CGM.pure]
            rw [hstep] at hrun
            set iAlloc : Instr :=
              .alloc ⟨s.nextVal, .ptrT⟩ ("var_" ++ sym.name) (ctx.sizeOf sym.typ)
              with hiAlloc
            set s4 : CGState :=
              { s with
                  nextVal := s.nextVal + 1,
                  blocks := appendToBlock s.blocks b iAlloc,
                  varMap := (sym.name, ⟨s.nextVal, .ptrT⟩) :: s.varMap } with hs4
            have hb4 : s4.curBlock = some b := hb
            have hlkb4 : List.lookup b s4.blocks =
                (List.lookup b s.blocks).map (fun l => l ++ [iAlloc]) := by
              rw [hs4]
              simp only [lookup_appendToBlock, if_pos rfl]
              cases List.lookup b s.blocks <;> simp
            have hbp4 : (List.lookup b s4.blocks).isSome = true := by
              rw [hlkb4]
              cases hx : List.lookup b s.blocks with
              | none => rw [hx] at hbp; simp at hbp
              | some l => simp
            have hfi4 : fi < s4.funcs.length := by
              rw [hs4]; simpa using hfi
            obtain ⟨ihc, ihbp, ihlen, ihmeta, ihlk, ⟨added, ihbi⟩, ps', ihps, ihnames, ihmem⟩ :=
              ih s4 s' b hb4 hbp4 hfi4 hrun
            have hbi4 : blockInstrs s4 b = blockInstrs s b ++ [iAlloc] := by
              simp only [blockInstrs, hlkb4]
              cases hx : List.lookup b s.blocks with
              | none => rw [hx] at hbp; simp at hbp
              | some l => simp
            refine ⟨ihc, ihbp, ?_, ?_, ?_, ?_, ?_⟩
            · rw [ihlen, hs4]
            · intro j
              rw [ihmeta j, hs4]
            · intro bid hbid
              rw [ihlk bid hbid, hs4]
              simp only [lookup_appendToBlock]
              cases hx : List.lookup bid s.blocks with
              | none => simp
              | some l => simp [hbid]
            · exact ⟨[iAlloc] ++ added, by rw [ihbi, hbi4, List.append_assoc]⟩
            · refine ⟨ps', ?_, ?_, ihmem⟩
              · rw [ihps, hs4]
              · simp only [ihnames, List.filter_cons, hpar]
                simp

end Cgen

namespace Cgen

theorem getEpilogue_state (fi : Nat) (s : CGState) :
    (getEpilogue fi s).2 = s := by
  unfold getEpilogue
  cases s.funcs[fi]? <;> rfl

/-- C9: a successful `gen_function` run (from a well-formed builder state)
clears the current function; it allocates the synthetic preamble
(`s.nextBlock`), the epilogue (`s.nextBlock + 1`) and a fresh entry block
(`s.nextBlock + 2`), all fresh; after the prologue the preamble contains
exactly the `Jump` into the entry block, every parameter symbol has
produced an `i32` parameter on the IR function (in scope order) together
with a `Store` of that parameter into its own named alloc in the entry
block; and after the body is lowered a final `Jump` to the function's
epilogue is emitted and the cursor is left on the epilogue block. -/
theorem c9_function_lowering (fuel : Nat) (ctx : Ctx) (fn : FuncAst)
    (s : CGState) (hwf : blocksWF s = true) (u : Unit) (s' : CGState)
    (hrun : gen_function fuel ctx fn s = (.ok u, s')) :
    s'.curFunc = none ∧
    (s.nextBlock ∉ s.blocks.map Prod.fst ∧
     s.nextBlock + 1 ∉ s.blocks.map Prod.fst ∧
     s.nextBlock + 2 ∉ s.blocks.map Prod.fst) ∧
    (∃ s₁,
      genLocals ctx s.funcs.length fn.innerScope
        { s with
            blocks := appendToBlock
              (s.blocks ++ [(s.nextBlock, []), (s.nextBlock + 1, []),
                            (s.nextBlock + 2, [])])
              s.nextBlock (.jump (s.nextBlock + 2)),
            nextBlock := s.nextBlock + 3,
            funcs := s.funcs ++ [⟨fn.name, [], s.nextBlock, s.nextBlock + 1⟩],
            curFunc := some s.funcs.length,
            curBlock := some (s.nextBlock + 2) } = (.ok (), s₁) ∧
      blockInstrs s₁ s.nextBlock = [.jump (s.nextBlock + 2)] ∧
      s₁.curBlock = some (s.nextBlock + 2) ∧
      (s₁.funcs[s.funcs.length]?).map
          (fun (f : FuncInfo) => (f.name, f.preamble, f.epilogue)) =
        some (fn.name, s.nextBlock, s.nextBlock + 1) ∧
      (∃ ps, (s₁.funcs[s.funcs.length]?).map FuncInfo.params = some ps ∧
        ps.map Prod.fst =
          (fn.innerScope.filter (fun sym => sym.isParameter)).map SymAst.name ∧
        (∀ q ∈ ps, q.2.ty = .i32 ∧
          ∃ al sz,
            Instr.alloc al ("var_" ++ q.1) sz ∈ blockInstrs s₁ (s.nextBlock + 2) ∧
            Instr.store q.2 al false ∈ blockInstrs s₁ (s.nextBlock + 2))) ∧
      (∃ s₂, gen_stmt fuel ctx fn.body s₁ = (.ok (), s₂) ∧
        ∃ ep, getEpilogue s.funcs.length s₂ = (.ok ep, s₂) ∧
          ∃ s₃, emitJump ep s₂ = (.ok (), s₃) ∧
            s' = { s₃ with curBlock := some ep, curFunc := none })) := by
  have hnone : ∀ k, s.nextBlock ≤ k → List.lookup k s.blocks = none :=
    fun k hk => lookup_none_of_wf s hwf k hk
  have hb0 : ((s.nextBlock + 2) == s.nextBlock) = false :=
    beq_eq_false_iff_ne.mpr (by omega)
  have hb1 : ((s.nextBlock + 2) == s.nextBlock + 1) = false :=
    beq_eq_false_iff_ne.mpr (by omega)
  have hb2 : ((s.nextBlock + 2) == s.nextBlock + 2) = true := by simp
  have hc0 : (s.nextBlock == s.nextBlock) = true := by simp
  set sE : CGState :=
    { s with
        blocks := appendToBlock
          (s.blocks ++ [(s.nextBlock, []), (s.nextBlock + 1, []),
                        (s.nextBlock + 2, [])])
          s.nextBlock (.jump (s.nextBlock + 2)),
        nextBlock := s.nextBlock + 3,
        funcs := s.funcs ++ [⟨fn.name, [], s.nextBlock, s.nextBlock + 1⟩],
        curFunc := some s.funcs.length,
        curBlock := some (s.nextBlock + 2) } with hsE
  have hstep : gen_function fuel ctx fn s =
      CGM.bind (genLocals ctx s.funcs.length fn.innerScope)
        (fun _ => CGM.bind (gen_stmt fuel ctx fn.body)
          (fun _ => CGM.bind (getEpilogue s.funcs.length)
            (fun ep => CGM.bind (emitJump ep)
              (fun _ => CGM.bind (setBlock ep) (fun _ => setFunction none))))) sE := by
    rw [hsE]
    simp [gen_function, newFunction, setFunction, newBlock, emitJump, emitEffect,
      setBlock, modifyState, CGM.bind, CGM.pure, getElem?_append_length]
  rw [hstep] at hrun
  obtain ⟨uL, s₁, hL, h⟩ := bind_ok_elim hrun
  cases uL
  -- the entry block exists in the prologue state
  have hlkE : List.lookup (s.nextBlock + 2) sE.blocks = some [] := by
    rw [hsE]
    simp only [lookup_appendToBlock, lookup_append,
      hnone (s.nextBlock + 2) (by omega), List.lookup, hb0, hb1, hb2]
    simp
  have hfiE : s.funcs.length < sE.funcs.length := by
    rw [hsE]; simp
  obtain ⟨ihc, ihbp, ihlen, ihmeta, ihlk, ⟨added, ihbi⟩, ps, ihps, ihnames, ihmem⟩ :=
    genLocals_spec ctx s.funcs.length fn.innerScope sE s₁ (s.nextBlock + 2)
      rfl (by rw [hlkE]; rfl) hfiE hL
  have hpreE : List.lookup s.nextBlock sE.blocks =
      some [Instr.jump (s.nextBlock + 2)] := by
    rw [hsE]
    simp only [lookup_appendToBlock, lookup_append,
      hnone s.nextBlock (le_refl s.nextBlock), List.lookup, hc0]
    simp
  have hpre1 : blockInstrs s₁ s.nextBlock = [.jump (s.nextBlock + 2)] := by
    unfold blockInstrs
    rw [ihlk s.nextBlock (by omega), hpreE]
    rfl
  have hfE : sE.funcs[s.funcs.length]? =
      some ⟨fn.name, [], s.nextBlock, s.nextBlock + 1⟩ := by
    rw [hsE]
    exact getElem?_append_length s.funcs _
  obtain ⟨uS, s₂, hS, h⟩ := bind_ok_elim h
  cases uS
  obtain ⟨ep, s₂e, hEp, h⟩ := bind_ok_elim h
  have hs2e : s₂e = s₂ := by
    have := congrArg Prod.snd hEp
    simpa [getEpilogue_state] using this.symm
  rw [hs2e] at hEp h
  obtain ⟨u3, s₃, hJ, h⟩ := bind_ok_elim h
  cases u3
  obtain ⟨u4, s₄, hSB, h⟩ := bind_ok_elim h
  have hs4 : s₄ = { s₃ with curBlock := some ep } := by
    have := congrArg Prod.snd hSB
    simpa [setBlock, modifyState] using this.symm
  have hs'x : s' = { s₄ with curFunc := none } := by
    have := congrArg Prod.snd h
    simpa [setFunction] using this.symm
  refine ⟨by rw [hs'x], ?_, ?_⟩
  · exact ⟨not_mem_map_fst_of_wf s hwf _ (le_refl _),
           not_mem_map_fst_of_wf s hwf _ (by omega),
           not_mem_map_fst_of_wf s hwf _ (by omega)⟩
  · refine ⟨s₁, hL, hpre1, ihc, ?_, ?_, ?_⟩
    · rw [ihmeta s.funcs.length, hfE]
      rfl
    · refine ⟨ps, ?_, ihnames, ihmem⟩
      rw [ihps, hfE]
      rfl
    · exact ⟨s₂, hS, ep, hEp, s₃, hJ, by rw [hs'x, hs4]⟩

end Cgen

namespace Cgen

/-- A concrete function: no locals, empty body. -/
def fnW : FuncAst := ⟨"m", [], Stmt.emptyS 0⟩

set_option maxHeartbeats 1000000 in
theorem c9_function_lowering_witness :
    blocksWF s0 = true ∧ (gen_function 4 ctx0 fnW s0).2.curFunc = none :=
  ⟨by decide, (c9_function_lowering 4 ctx0 fnW s0 (by decide) ()
      (gen_function 4 ctx0 fnW s0).2 (by rfl)).1⟩

end Cgen
